import Mathlib

/-!
# RAM block driver: `ram_block.c`

A shallow embedding of `mydisk_transfer` (`src/ram_block.c`, lines 72-133) and of the
backing store it drives, of the queue loop `mydisk_request` (lines 138-164), and of
`mydisk_open` (lines 35-45) and `mydisk_init` (lines 181-253), followed by their properties.

Conventions of the embedding:

* `MYDISK_SECTOR_SIZE` comes from `ram_device.h`, which is not part of the sources at hand;
  it is the parameter `ss` of every definition (the spec's scenario uses 512).
* `sector_t` is the 64-bit unsigned kernel type: `start_sector + sector_offset` and
  `sector_offset += sectors` are computed modulo `2 ^ 64`.
* `unsigned int` is 32 bits wide. `BV_LEN(bv)` is the length of the segment's buffer, so
  `BV_LEN(bv) % MYDISK_SECTOR_SIZE` and `BV_LEN(bv) / MYDISK_SECTOR_SIZE` never exceed it and
  need no reduction.
* `printk` calls have no effect on the state and are left out.
* The kernel functions `mydisk_init` calls are parameters: `init_env` holds what they return,
  and the calls made are recorded in order. `int` results are integers; the unsigned globals
  `mydisk_major` and `mydisk_dev.size` hold them modulo `2 ^ 32`.
-/

set_option maxRecDepth 16384

namespace RamBlock

/-! ## Data model -/

/-- One byte of a buffer (`u8`). -/
abbrev u8 := Fin 256

/-- Wrap-around of `sector_t` arithmetic (64-bit unsigned). -/
def sector_t_wrap (x : Nat) : Nat := x % 2 ^ 64

/-- The errno value `EIO` of `linux/errno.h`. -/
def EIO : Int := 5

/-- The data direction `READ` of the block layer. -/
def READ : Int := 0

/-- The data direction `WRITE` of the block layer. -/
def WRITE : Int := 1

/-- A segment of a request: `buf` holds the `bv_len` bytes found at
`page_address(BV_PAGE(bv)) + BV_OFFSET(bv)`. -/
structure bio_vec where
  buf : List u8
deriving DecidableEq, Repr

/-- The byte length `BV_LEN(bv)` of a segment. -/
def BV_LEN (bv : bio_vec) : Nat := bv.buf.length

/-- A block-layer request as `mydisk_transfer` sees it: the values of `rq_data_dir(req)`,
`blk_rq_pos(req)` (a `sector_t`), `blk_rq_sectors(req)` (an `unsigned int`) and the segments
that `rq_for_each_segment` visits, in order. -/
structure request where
  rq_data_dir : Int
  blk_rq_pos : Fin (2 ^ 64)
  blk_rq_sectors : Fin (2 ^ 32)
  segments : List bio_vec
deriving DecidableEq, Repr

/-! ## Backing store -/

/-- Modelled from the spec: the backing store of `ram_device.c` (not among the sources) is
"a fixed-capacity linear array of bytes, addressable by sector index". -/
abbrev ramdevice := List u8

/-- Modelled from the spec: the capacity of the backing store in sectors, the number of whole
sectors its byte array holds. -/
def ramdevice_capacity (ss : Nat) (dev : ramdevice) : Nat := dev.length / ss

/-- Copy `bytes` over `mem` from byte offset `off` on. The length of `mem` is kept: what would
land past its end is dropped (the spec leaves such accesses undefined). -/
def copy_into (mem : List u8) (off : Nat) (bytes : List u8) : List u8 :=
  mem.take off ++ bytes.take (mem.length - off) ++ mem.drop (off + bytes.length)

/-- Modelled from the spec: `ramdevice_write(sector_off, buffer, sectors)` of `ram_device.c`
(not among the sources), "copy `sector_count * sector_size_bytes` bytes from `buffer` into the
store", starting at sector `sector_off`. -/
def ramdevice_write (ss : Nat) (dev : ramdevice) (sector_off : Nat) (buffer : List u8)
    (sectors : Nat) : ramdevice :=
  copy_into dev (sector_off * ss) (buffer.take (sectors * ss))

/-- Modelled from the spec: `ramdevice_read(sector_off, buffer, sectors)` of `ram_device.c`
(not among the sources), "copy `sector_count * sector_size_bytes` bytes from the store into
`buffer`", starting at sector `sector_off`. The result is the buffer after the call. -/
def ramdevice_read (ss : Nat) (dev : ramdevice) (sector_off : Nat) (buffer : List u8)
    (sectors : Nat) : List u8 :=
  copy_into buffer 0 ((dev.drop (sector_off * ss)).take (sectors * ss))

/-- A call made to the backing store, with its arguments as passed. -/
inductive ramdevice_call where
  | write (sector_off : Nat) (buffer : List u8) (sectors : Nat)
  | read (sector_off : Nat) (buffer : List u8) (sectors : Nat)
deriving DecidableEq, Repr

/-! ## `mydisk_transfer` -/

/-- The variables of `mydisk_transfer` that change in its loop, together with the backing
store, the buffers of the segments visited so far and the backing-store calls made so far. -/
structure transfer_state where
  dev : ramdevice
  segments : List bio_vec
  calls : List ramdevice_call
  sector_offset : Nat
  ret : Int
deriving DecidableEq, Repr

/-- One pass through the body of `rq_for_each_segment` in `mydisk_transfer` (lines 104-124). -/
def transfer_segment (ss : Nat) (dir : Int) (start_sector : Nat) (st : transfer_state)
    (bv : bio_vec) : transfer_state :=
  let buffer := bv.buf
  let ret := if BV_LEN bv % ss ≠ 0 then - EIO else st.ret
  let sectors := BV_LEN bv / ss
  let addr := sector_t_wrap (start_sector + st.sector_offset)
  if dir = WRITE then
    { dev := ramdevice_write ss st.dev addr buffer sectors
      segments := st.segments ++ [bv]
      calls := st.calls ++ [ramdevice_call.write addr buffer sectors]
      sector_offset := sector_t_wrap (st.sector_offset + sectors)
      ret := ret }
  else
    { dev := st.dev
      segments := st.segments ++ [⟨ramdevice_read ss st.dev addr buffer sectors⟩]
      calls := st.calls ++ [ramdevice_call.read addr buffer sectors]
      sector_offset := sector_t_wrap (st.sector_offset + sectors)
      ret := ret }

/-- What `mydisk_transfer` leaves behind: its return value, the backing store, the segments
with their buffers after the transfer, and the backing-store calls it made, in order. -/
structure transfer_result where
  ret : Int
  dev : ramdevice
  segments : List bio_vec
  calls : List ramdevice_call
deriving DecidableEq, Repr

/-- The state in which `mydisk_transfer` enters its loop (`ret = 0`, `sector_offset = 0`). -/
def transfer_init (dev : ramdevice) : transfer_state :=
  { dev := dev, segments := [], calls := [], sector_offset := 0, ret := 0 }

/-- The loop of `mydisk_transfer` over the segments of a request (lines 101-125). -/
def transfer_loop (ss : Nat) (dir : Int) (start_sector : Nat) (st : transfer_state)
    (segs : List bio_vec) : transfer_state :=
  segs.foldl (transfer_segment ss dir start_sector) st

/-- The function `mydisk_transfer` of `ram_block.c` (lines 72-133), run against the backing
store `dev`. -/
def mydisk_transfer (ss : Nat) (dev : ramdevice) (req : request) : transfer_result :=
  let dir := req.rq_data_dir
  let start_sector := req.blk_rq_pos.val
  let sector_cnt := req.blk_rq_sectors.val
  let st := transfer_loop ss dir start_sector (transfer_init dev) req.segments
  let ret := if st.sector_offset ≠ sector_cnt then - EIO else st.ret
  { ret := ret, dev := st.dev, segments := st.segments, calls := st.calls }

/-! ## Vocabulary of the properties -/

/-- The sectors a segment accounts for: `BV_LEN(bv) / MYDISK_SECTOR_SIZE`. -/
def segment_sectors (ss : Nat) (bv : bio_vec) : Nat := BV_LEN bv / ss

/-- The sum over the segments of `BV_LEN(bv) / MYDISK_SECTOR_SIZE`. -/
def sector_sum (ss : Nat) : List bio_vec → Nat
  | [] => 0
  | bv :: rest => segment_sectors ss bv + sector_sum ss rest

/-- Every segment's byte length is an exact multiple of the sector size. -/
def all_aligned (ss : Nat) (segs : List bio_vec) : Prop :=
  ∀ bv ∈ segs, BV_LEN bv % ss = 0

instance (ss : Nat) (segs : List bio_vec) : Decidable (all_aligned ss segs) := by
  unfold all_aligned
  infer_instance

/-- The buffers of the segments, concatenated in list order. -/
def concat_buffers : List bio_vec → List u8
  | [] => []
  | bv :: rest => bv.buf ++ concat_buffers rest

/-- The bytes of the `n` sectors of the store that start at sector `s`. -/
def store_sectors (ss : Nat) (dev : ramdevice) (s n : Nat) : List u8 :=
  (dev.drop (s * ss)).take (n * ss)

/-- The backing-store call of a request of direction `dir`: `ramdevice_write` for `WRITE`,
`ramdevice_read` otherwise. -/
def call_for (dir : Int) (sector_off : Nat) (buffer : List u8) (sectors : Nat) :
    ramdevice_call :=
  if dir = WRITE then ramdevice_call.write sector_off buffer sectors
  else ramdevice_call.read sector_off buffer sectors

/-- The sector address a backing-store call was made at. -/
def ramdevice_call.address : ramdevice_call → Nat
  | ramdevice_call.write sector_off _ _ => sector_off
  | ramdevice_call.read sector_off _ _ => sector_off

/-- The number of sectors a backing-store call was made for. -/
def ramdevice_call.count : ramdevice_call → Nat
  | ramdevice_call.write _ _ sectors => sectors
  | ramdevice_call.read _ _ sectors => sectors

/-- The calls the loop makes for `segs` when it is entered with running offset `off`. -/
def calls_from (ss : Nat) (dir : Int) (start : Nat) (off : Nat) :
    List bio_vec → List ramdevice_call
  | [] => []
  | bv :: rest =>
    call_for dir (sector_t_wrap (start + off)) bv.buf (segment_sectors ss bv)
      :: calls_from ss dir start (off + segment_sectors ss bv) rest

/-- The claim "the sector address strictly advances from each segment's call to the next":
each call is made at the previous call's address plus the previous call's sector count, and
that address is larger than the previous one. -/
def strictly_advancing (calls : List ramdevice_call) : Prop :=
  ∀ (i : Nat) (a b : ramdevice_call), calls[i]? = some a → calls[i + 1]? = some b →
    b.address = a.address + a.count ∧ a.address < b.address

/-- The status as the claim has it, a function of the segments' byte lengths and of the
request's sector count alone: `-EIO` when the sector counts `length / MYDISK_SECTOR_SIZE` do not
sum (in `sector_t`) to the sector count or a length is not a multiple of the sector size, 0
otherwise. -/
def status_of_lengths (ss : Nat) (lens : List Nat) (sector_cnt : Nat) : Int :=
  if sector_t_wrap ((lens.map (fun l => l / ss)).sum) ≠ sector_cnt then - EIO
  else if ∃ l ∈ lens, l % ss ≠ 0 then - EIO
  else 0

/-! ## `mydisk_request` -/

/-- What `mydisk_request` does with the request queue, in order: what `blk_fetch_request`
handed out (`none` for `NULL`) and what `__blk_end_request_all` was called with. A completed
request is recorded with its buffers as the transfer left them. -/
inductive queue_event where
  | blk_fetch_request (req : Option request)
  | blk_end_request_all (req : request) (ret : Int)
deriving DecidableEq, Repr

/-- What `mydisk_request` leaves behind: the queue, the backing store and the record of its
dealings with the queue. -/
structure request_result where
  queue : List request
  dev : ramdevice
  log : List queue_event
deriving DecidableEq, Repr

/-- The loop of `mydisk_request` (lines 144-163): `blk_fetch_request` takes the head off the
dispatch queue and returns `NULL` when the queue is empty; each fetched request goes through
`mydisk_transfer` and is completed with `__blk_end_request_all(req, ret)`. -/
def mydisk_request_loop (ss : Nat) : List request → ramdevice → List queue_event →
    request_result
  | [], dev, log =>
    { queue := [], dev := dev, log := log ++ [queue_event.blk_fetch_request none] }
  | req :: q, dev, log =>
    let res := mydisk_transfer ss dev req
    mydisk_request_loop ss q res.dev
      (log ++ [queue_event.blk_fetch_request (some req),
        queue_event.blk_end_request_all { req with segments := res.segments } res.ret])

/-- The function `mydisk_request` of `ram_block.c` (lines 138-164), run on the queue `q`
against the backing store `dev`. -/
def mydisk_request (ss : Nat) (q : List request) (dev : ramdevice) : request_result :=
  mydisk_request_loop ss q dev []

/-- The statuses passed to `__blk_end_request_all`, in order. -/
def completion_statuses : List queue_event → List Int
  | [] => []
  | queue_event.blk_end_request_all _ ret :: rest => ret :: completion_statuses rest
  | queue_event.blk_fetch_request _ :: rest => completion_statuses rest

/-- The requests `blk_fetch_request` handed out, in order. -/
def fetched_requests : List queue_event → List request
  | [] => []
  | queue_event.blk_fetch_request (some req) :: rest => req :: fetched_requests rest
  | _ :: rest => fetched_requests rest

/-- The claim's sequence of statuses: `mydisk_transfer` run on each request in queue order
against the store the previous request left. -/
def fifo_statuses (ss : Nat) : ramdevice → List request → List Int
  | _, [] => []
  | dev, req :: q =>
    (mydisk_transfer ss dev req).ret :: fifo_statuses ss (mydisk_transfer ss dev req).dev q

/-- The claim's final store: the left fold of the per-request transfers. -/
def fifo_store (ss : Nat) (dev : ramdevice) (q : List request) : ramdevice :=
  q.foldl (fun d req => (mydisk_transfer ss d req).dev) dev

/-- The claim's order of events: each request in queue order is fetched and then completed
with its own transfer's return value (and the buffers that transfer left) before the next
one is fetched; a last fetch finds the queue empty. -/
def fifo_log (ss : Nat) : ramdevice → List request → List queue_event
  | _, [] => [queue_event.blk_fetch_request none]
  | dev, req :: q =>
    queue_event.blk_fetch_request (some req)
      :: queue_event.blk_end_request_all
          { req with segments := (mydisk_transfer ss dev req).segments }
          (mydisk_transfer ss dev req).ret
      :: fifo_log ss (mydisk_transfer ss dev req).dev q

/-! ## `mydisk_open` and `mydisk_init` -/

/-- The errno value `EBUSY` of `linux/errno.h`. -/
def EBUSY : Int := 16

/-- The errno value `ENOMEM` of `linux/errno.h`. -/
def ENOMEM : Int := 12

/-- The errno value `ENODEV` of `linux/errno.h`. -/
def ENODEV : Int := 19

/-- `MYDISK_FIRST_MINOR` (line 15). -/
def MYDISK_FIRST_MINOR : Nat := 0

/-- `MYDISK_MINOR_CNT` (line 16). -/
def MYDISK_MINOR_CNT : Nat := 16

/-- The function `mydisk_open` of `ram_block.c` (lines 35-45); `unit` is the value of
`iminor(bdev->bd_inode)`. -/
def mydisk_open (unit : Nat) : Int :=
  if unit > MYDISK_MINOR_CNT then - ENODEV else 0

/-- Conversion of an `int` to the 32-bit `unsigned int` (`u_int`). -/
def to_u_int (x : Int) : Nat := (x % 2 ^ 32).toNat

/-- What the functions called by `mydisk_init` answer: the return values of `ramdevice_init`
and `register_blkdev` (both `int`), and whether `blk_init_queue` and `alloc_disk` return a
pointer other than `NULL`. -/
structure init_env where
  ramdevice_init : Int
  register_blkdev : Int
  blk_init_queue : Bool
  alloc_disk : Bool
deriving DecidableEq, Repr

/-- A call `mydisk_init` makes, with the arguments that matter. -/
inductive init_call where
  | ramdevice_init
  | register_blkdev (major : Nat)
  | ramdevice_cleanup
  | spin_lock_init
  | blk_init_queue
  | unregister_blkdev (major : Nat)
  | alloc_disk (minors : Nat)
  | blk_cleanup_queue
  | set_capacity (size : Nat)
  | add_disk
deriving DecidableEq, Repr

/-- What `mydisk_init` leaves behind: its return value, the globals `mydisk_major` and
`mydisk_dev.size`, and the calls it made, in order. -/
structure init_result where
  ret : Int
  mydisk_major : Nat
  size : Nat
  calls : List init_call
deriving DecidableEq, Repr

/-- The function `mydisk_init` of `ram_block.c` (lines 181-253). The globals start at 0
(`static u_int mydisk_major = 0`, the static `mydisk_dev`); `mydisk_major` and
`mydisk_dev.size` are unsigned, so the `int` results are converted on assignment. -/
def mydisk_init (env : init_env) : init_result :=
  let ret := env.ramdevice_init
  if ret < 0 then
    { ret := ret, mydisk_major := 0, size := 0, calls := [init_call.ramdevice_init] }
  else
    let size := to_u_int ret
    let mydisk_major := to_u_int env.register_blkdev
    if mydisk_major ≤ 0 then
      { ret := - EBUSY, mydisk_major := mydisk_major, size := size
        calls := [init_call.ramdevice_init, init_call.register_blkdev 0,
          init_call.ramdevice_cleanup] }
    else if env.blk_init_queue = false then
      { ret := - ENOMEM, mydisk_major := mydisk_major, size := size
        calls := [init_call.ramdevice_init, init_call.register_blkdev 0,
          init_call.spin_lock_init, init_call.blk_init_queue,
          init_call.unregister_blkdev mydisk_major, init_call.ramdevice_cleanup] }
    else if env.alloc_disk = false then
      { ret := - ENOMEM, mydisk_major := mydisk_major, size := size
        calls := [init_call.ramdevice_init, init_call.register_blkdev 0,
          init_call.spin_lock_init, init_call.blk_init_queue,
          init_call.alloc_disk MYDISK_MINOR_CNT, init_call.blk_cleanup_queue,
          init_call.unregister_blkdev mydisk_major, init_call.ramdevice_cleanup] }
    else
      { ret := 0, mydisk_major := mydisk_major, size := size
        calls := [init_call.ramdevice_init, init_call.register_blkdev 0,
          init_call.spin_lock_init, init_call.blk_init_queue,
          init_call.alloc_disk MYDISK_MINOR_CNT, init_call.set_capacity size,
          init_call.add_disk] }

/-- A resource `mydisk_init` holds. -/
inductive init_resource where
  | backing_store
  | major_number
  | queue
  | disk
deriving DecidableEq, Repr

/-- The resources a run of `mydisk_init` acquired, in order of acquisition: the backing store
when `ramdevice_init` returned no error, the major number when `register_blkdev` returned one,
the queue and the disk when `blk_init_queue` and `alloc_disk` returned a pointer. -/
def acquired (env : init_env) : List init_call → List init_resource
  | [] => []
  | init_call.ramdevice_init :: rest =>
    if 0 ≤ env.ramdevice_init then init_resource.backing_store :: acquired env rest
    else acquired env rest
  | init_call.register_blkdev _ :: rest =>
    if 0 < env.register_blkdev then init_resource.major_number :: acquired env rest
    else acquired env rest
  | init_call.blk_init_queue :: rest =>
    if env.blk_init_queue then init_resource.queue :: acquired env rest
    else acquired env rest
  | init_call.alloc_disk _ :: rest =>
    if env.alloc_disk then init_resource.disk :: acquired env rest else acquired env rest
  | _ :: rest => acquired env rest

/-- The resources a run of `mydisk_init` released, in order of release. -/
def released : List init_call → List init_resource
  | [] => []
  | init_call.ramdevice_cleanup :: rest => init_resource.backing_store :: released rest
  | init_call.unregister_blkdev _ :: rest => init_resource.major_number :: released rest
  | init_call.blk_cleanup_queue :: rest => init_resource.queue :: released rest
  | _ :: rest => released rest

/-! ## The loop, segment by segment -/

@[simp] theorem transfer_loop_nil (ss : Nat) (dir : Int) (start : Nat) (st : transfer_state) :
    transfer_loop ss dir start st [] = st := rfl

@[simp] theorem transfer_loop_cons (ss : Nat) (dir : Int) (start : Nat) (st : transfer_state)
    (bv : bio_vec) (rest : List bio_vec) :
    transfer_loop ss dir start st (bv :: rest)
      = transfer_loop ss dir start (transfer_segment ss dir start st bv) rest := rfl

theorem transfer_segment_ret (ss : Nat) (dir : Int) (start : Nat) (st : transfer_state)
    (bv : bio_vec) :
    (transfer_segment ss dir start st bv).ret
      = if BV_LEN bv % ss ≠ 0 then - EIO else st.ret := by
  unfold transfer_segment
  by_cases hd : dir = WRITE <;> simp [hd]

theorem transfer_segment_sector_offset (ss : Nat) (dir : Int) (start : Nat)
    (st : transfer_state) (bv : bio_vec) :
    (transfer_segment ss dir start st bv).sector_offset
      = sector_t_wrap (st.sector_offset + segment_sectors ss bv) := by
  unfold transfer_segment segment_sectors
  by_cases hd : dir = WRITE <;> simp [hd]

theorem transfer_segment_calls (ss : Nat) (dir : Int) (start : Nat) (st : transfer_state)
    (bv : bio_vec) :
    (transfer_segment ss dir start st bv).calls
      = st.calls ++ [if dir = WRITE
          then ramdevice_call.write (sector_t_wrap (start + st.sector_offset)) bv.buf
            (segment_sectors ss bv)
          else ramdevice_call.read (sector_t_wrap (start + st.sector_offset)) bv.buf
            (segment_sectors ss bv)] := by
  unfold transfer_segment segment_sectors
  by_cases hd : dir = WRITE <;> simp [hd]

/-- The loop leaves `ret` alone when every segment is aligned. -/
theorem transfer_loop_ret_of_aligned (ss : Nat) (dir : Int) (start : Nat)
    (segs : List bio_vec) (st : transfer_state) (h : all_aligned ss segs) :
    (transfer_loop ss dir start st segs).ret = st.ret := by
  induction segs generalizing st with
  | nil => rfl
  | cons bv rest ih =>
    have hbv : BV_LEN bv % ss = 0 := h bv (List.mem_cons_self _ _)
    have hrest : all_aligned ss rest := fun b hb => h b (List.mem_cons_of_mem _ hb)
    rw [transfer_loop_cons, ih _ hrest, transfer_segment_ret]
    simp [hbv]

/-- Once `ret` is `-EIO` the loop never resets it. -/
theorem transfer_loop_ret_of_failed (ss : Nat) (dir : Int) (start : Nat)
    (segs : List bio_vec) (st : transfer_state) (h : st.ret = - EIO) :
    (transfer_loop ss dir start st segs).ret = - EIO := by
  induction segs generalizing st with
  | nil => exact h
  | cons bv rest ih =>
    rw [transfer_loop_cons]
    apply ih
    rw [transfer_segment_ret]
    split <;> simp [h]

/-- A misaligned segment anywhere in the list leaves `ret` at `-EIO`. -/
theorem transfer_loop_ret_of_misaligned (ss : Nat) (dir : Int) (start : Nat)
    (segs : List bio_vec) (st : transfer_state)
    (h : ∃ bv ∈ segs, BV_LEN bv % ss ≠ 0) :
    (transfer_loop ss dir start st segs).ret = - EIO := by
  induction segs generalizing st with
  | nil => obtain ⟨bv, hbv, _⟩ := h; cases hbv
  | cons b rest ih =>
    rw [transfer_loop_cons]
    by_cases hb : BV_LEN b % ss ≠ 0
    · apply transfer_loop_ret_of_failed
      rw [transfer_segment_ret]
      simp [hb]
    · apply ih
      obtain ⟨bv, hbv, hne⟩ := h
      rcases List.mem_cons.mp hbv with rfl | hmem
      · exact absurd hne hb
      · exact ⟨bv, hmem, hne⟩

/-- The loop's `ret` is the entry value or `-EIO`. -/
theorem transfer_loop_ret_cases (ss : Nat) (dir : Int) (start : Nat)
    (segs : List bio_vec) (st : transfer_state) :
    (transfer_loop ss dir start st segs).ret = st.ret
      ∨ (transfer_loop ss dir start st segs).ret = - EIO := by
  by_cases h : ∃ bv ∈ segs, BV_LEN bv % ss ≠ 0
  · exact Or.inr (transfer_loop_ret_of_misaligned ss dir start segs st h)
  · left
    apply transfer_loop_ret_of_aligned
    intro bv hbv
    by_contra hne
    exact h ⟨bv, hbv, hne⟩

/-- The running offset after the loop: the sum of the segments' sector counts, in `sector_t`
arithmetic. -/
theorem transfer_loop_sector_offset (ss : Nat) (dir : Int) (start : Nat)
    (segs : List bio_vec) (st : transfer_state) (h : st.sector_offset < 2 ^ 64) :
    (transfer_loop ss dir start st segs).sector_offset
      = sector_t_wrap (st.sector_offset + sector_sum ss segs) := by
  induction segs generalizing st with
  | nil =>
    simp only [transfer_loop_nil, sector_sum, sector_t_wrap, Nat.add_zero]
    exact (Nat.mod_eq_of_lt h).symm
  | cons bv rest ih =>
    rw [transfer_loop_cons, ih]
    · rw [transfer_segment_sector_offset]
      simp only [sector_t_wrap, sector_sum]
      rw [Nat.mod_add_mod, Nat.add_assoc]
    · rw [transfer_segment_sector_offset]
      exact Nat.mod_lt _ (by decide)


/-- The running offset with which `mydisk_transfer` leaves its loop. -/
theorem transfer_loop_init_sector_offset (ss : Nat) (dir : Int) (start : Nat)
    (dev : ramdevice) (segs : List bio_vec) :
    (transfer_loop ss dir start (transfer_init dev) segs).sector_offset
      = sector_t_wrap (sector_sum ss segs) := by
  have h0 : (transfer_init dev).sector_offset < 2 ^ 64 := by
    show 0 < 2 ^ 64
    decide
  rw [transfer_loop_sector_offset ss dir start segs (transfer_init dev) h0]
  simp [transfer_init]

theorem mydisk_transfer_ret (ss : Nat) (dev : ramdevice) (req : request) :
    (mydisk_transfer ss dev req).ret
      = if sector_t_wrap (sector_sum ss req.segments) ≠ req.blk_rq_sectors.val then - EIO
        else (transfer_loop ss req.rq_data_dir req.blk_rq_pos.val (transfer_init dev)
          req.segments).ret := by
  simp only [mydisk_transfer, transfer_loop_init_sector_offset]

theorem sector_t_wrap_of_lt {x : Nat} (h : x < 2 ^ 64) : sector_t_wrap x = x :=
  Nat.mod_eq_of_lt h

/-! ## The status of a transfer -/

/-- Claim C1: when every segment's byte length is a multiple of the sector size and the
segments' sector counts sum to the request's sector count, `mydisk_transfer` returns 0,
whatever the direction, the start sector and the store. -/
theorem mydisk_transfer_returns_zero (ss : Nat) (dev : ramdevice) (req : request)
    (hal : all_aligned ss req.segments)
    (hsum : sector_sum ss req.segments = req.blk_rq_sectors.val) :
    (mydisk_transfer ss dev req).ret = 0 := by
  have hlt : req.blk_rq_sectors.val < 2 ^ 64 :=
    Nat.lt_trans req.blk_rq_sectors.isLt (by decide)
  rw [mydisk_transfer_ret, hsum, sector_t_wrap_of_lt hlt]
  simp only [ne_eq, not_true_eq_false, if_false]
  rw [transfer_loop_ret_of_aligned _ _ _ _ _ hal]
  rfl

/-- The spec's scenario for C1: a write of 2 sectors at sector 10 from one 1024-byte segment,
sector size 512, succeeds. -/
theorem mydisk_transfer_returns_zero_witness :
    (mydisk_transfer 512 (List.replicate (1024 * 512) 0)
      ⟨WRITE, 10, 2, [⟨List.replicate 1024 7⟩]⟩).ret = 0 :=
  mydisk_transfer_returns_zero 512 _ _
    (by
      intro bv hbv
      rw [List.mem_singleton] at hbv
      subst hbv
      simp only [BV_LEN, List.length_replicate])
    (by simp only [sector_sum, segment_sectors, BV_LEN, List.length_replicate]; rfl)

/-- Claim C2: a request with at least one segment whose byte length is not a multiple of the
sector size gets `-EIO`, wherever that segment sits and whatever the other segments and the
sector count are. -/
theorem mydisk_transfer_misaligned_eio (ss : Nat) (dev : ramdevice) (req : request)
    (hmis : ∃ bv ∈ req.segments, BV_LEN bv % ss ≠ 0) :
    (mydisk_transfer ss dev req).ret = - EIO := by
  rw [mydisk_transfer_ret]
  split
  · rfl
  · exact transfer_loop_ret_of_misaligned _ _ _ _ _ hmis

/-- The spec's scenario for C2: a write of 2 sectors at sector 10 from one 1000-byte segment,
sector size 512, fails. -/
theorem mydisk_transfer_misaligned_eio_witness :
    (mydisk_transfer 512 (List.replicate (1024 * 512) 0)
      ⟨WRITE, 10, 2, [⟨List.replicate 1000 7⟩]⟩).ret = - EIO :=
  mydisk_transfer_misaligned_eio 512 _ _
    ⟨⟨List.replicate 1000 7⟩, List.mem_singleton.mpr rfl,
      by simp only [BV_LEN, List.length_replicate]; decide⟩

/-- Claim C3: when the segments' sector counts (byte length divided by the sector size) sum to
something else than the request's sector count, `mydisk_transfer` returns `-EIO`, aligned
segments or not. The sum is one that `sector_t` can hold. -/
theorem mydisk_transfer_mismatch_eio (ss : Nat) (dev : ramdevice) (req : request)
    (hfit : sector_sum ss req.segments < 2 ^ 64)
    (hsum : sector_sum ss req.segments ≠ req.blk_rq_sectors.val) :
    (mydisk_transfer ss dev req).ret = - EIO := by
  rw [mydisk_transfer_ret, sector_t_wrap_of_lt hfit, if_pos hsum]

/-- The spec's scenario for C3: a read of 3 sectors at sector 10 into two 512-byte segments,
sector size 512, fails. -/
theorem mydisk_transfer_mismatch_eio_witness :
    (mydisk_transfer 512 (List.replicate (1024 * 512) 0)
      ⟨READ, 10, 3, [⟨List.replicate 512 0⟩, ⟨List.replicate 512 0⟩]⟩).ret = - EIO :=
  mydisk_transfer_mismatch_eio 512 _ _
    (by simp only [sector_sum, segment_sectors, BV_LEN, List.length_replicate]; decide)
    (by simp only [sector_sum, segment_sectors, BV_LEN, List.length_replicate]; decide)


/-! ## The calls of a transfer -/

theorem transfer_segment_calls_for (ss : Nat) (dir : Int) (start : Nat) (st : transfer_state)
    (bv : bio_vec) :
    (transfer_segment ss dir start st bv).calls
      = st.calls ++ [call_for dir (sector_t_wrap (start + st.sector_offset)) bv.buf
          (segment_sectors ss bv)] := by
  rw [transfer_segment_calls]
  unfold call_for
  rfl

/-- The calls depend on the running offset modulo `2 ^ 64` only. -/
theorem calls_from_congr (ss : Nat) (dir : Int) (start : Nat) (segs : List bio_vec)
    (x y : Nat) (h : x % 2 ^ 64 = y % 2 ^ 64) :
    calls_from ss dir start x segs = calls_from ss dir start y segs := by
  induction segs generalizing x y with
  | nil => rfl
  | cons bv rest ih =>
    simp only [calls_from]
    have h1 : sector_t_wrap (start + x) = sector_t_wrap (start + y) := by
      simp only [sector_t_wrap]
      omega
    rw [h1, ih (x + segment_sectors ss bv) (y + segment_sectors ss bv) (by omega)]

theorem transfer_loop_calls (ss : Nat) (dir : Int) (start : Nat) (segs : List bio_vec)
    (st : transfer_state) :
    (transfer_loop ss dir start st segs).calls
      = st.calls ++ calls_from ss dir start st.sector_offset segs := by
  induction segs generalizing st with
  | nil => simp [calls_from]
  | cons bv rest ih =>
    rw [transfer_loop_cons, ih, transfer_segment_calls_for, transfer_segment_sector_offset]
    rw [calls_from_congr ss dir start rest
      (sector_t_wrap (st.sector_offset + segment_sectors ss bv))
      (st.sector_offset + segment_sectors ss bv) (by simp [sector_t_wrap])]
    simp [calls_from]

theorem mydisk_transfer_calls_eq (ss : Nat) (dev : ramdevice) (req : request) :
    (mydisk_transfer ss dev req).calls
      = calls_from ss req.rq_data_dir req.blk_rq_pos.val 0 req.segments := by
  simp [mydisk_transfer, transfer_loop_calls, transfer_init]

theorem length_calls_from (ss : Nat) (dir : Int) (start : Nat) (segs : List bio_vec)
    (off : Nat) : (calls_from ss dir start off segs).length = segs.length := by
  induction segs generalizing off with
  | nil => rfl
  | cons bv rest ih => simp [calls_from, ih]

theorem sector_sum_take_le (ss : Nat) (segs : List bio_vec) (i : Nat) :
    sector_sum ss (segs.take i) ≤ sector_sum ss segs := by
  induction segs generalizing i with
  | nil => simp [sector_sum]
  | cons bv rest ih =>
    cases i with
    | zero => simp [sector_sum]
    | succ j =>
      simp only [List.take_succ_cons, sector_sum]
      have := ih j
      omega

/-- The `i`-th call the loop makes. -/
theorem getElem?_calls_from (ss : Nat) (dir : Int) (start : Nat) (segs : List bio_vec)
    (off i : Nat) (hi : i < segs.length) :
    (calls_from ss dir start off segs)[i]?
      = some (call_for dir (sector_t_wrap (start + (off + sector_sum ss (segs.take i))))
          segs[i].buf (segment_sectors ss segs[i])) := by
  induction segs generalizing off i with
  | nil => cases hi
  | cons bv rest ih =>
    cases i with
    | zero => simp [calls_from, sector_sum]
    | succ j =>
      have hj : j < rest.length := by simpa using hi
      simp only [calls_from, List.getElem?_cons_succ, List.take_succ_cons, sector_sum,
        List.getElem_cons_succ]
      rw [ih (off + segment_sectors ss bv) j hj, Nat.add_assoc]


theorem call_for_address (dir : Int) (addr : Nat) (buffer : List u8) (sectors : Nat) :
    (call_for dir addr buffer sectors).address = addr := by
  unfold call_for
  split <;> rfl

theorem call_for_count (dir : Int) (addr : Nat) (buffer : List u8) (sectors : Nat) :
    (call_for dir addr buffer sectors).count = sectors := by
  unfold call_for
  split <;> rfl

theorem sector_sum_take_succ (ss : Nat) (segs : List bio_vec) (i : Nat)
    (hi : i < segs.length) :
    sector_sum ss (segs.take (i + 1))
      = sector_sum ss (segs.take i) + segment_sectors ss segs[i] := by
  induction segs generalizing i with
  | nil => cases hi
  | cons bv rest ih =>
    cases i with
    | zero => simp [sector_sum]
    | succ j =>
      have hj : j < rest.length := by simpa using hi
      simp only [List.take_succ_cons, sector_sum, List.getElem_cons_succ]
      rw [ih j hj, Nat.add_assoc]

/-- Claim C7: `mydisk_transfer` makes exactly one backing-store call per segment, in list
order. The call for the `i`-th segment is `ramdevice_write` for a `WRITE` request and
`ramdevice_read` otherwise, gets that segment's buffer, is made for
`BV_LEN / MYDISK_SECTOR_SIZE` sectors, and is made at `start_sector` plus the sum of
`BV_LEN / MYDISK_SECTOR_SIZE` over the earlier segments: a `sector_t` sum, which is the plain
sum whenever the request's sectors are addressable in `sector_t`. No alignment of any segment
is assumed, so a misaligned segment suppresses no later call and moves no later address. -/
theorem mydisk_transfer_call_per_segment (ss : Nat) (dev : ramdevice) (req : request) :
    (mydisk_transfer ss dev req).calls.length = req.segments.length ∧
    ∀ (i : Nat) (hi : i < req.segments.length),
      (mydisk_transfer ss dev req).calls[i]?
        = some (call_for req.rq_data_dir
            (sector_t_wrap (req.blk_rq_pos.val + sector_sum ss (req.segments.take i)))
            req.segments[i].buf (BV_LEN req.segments[i] / ss)) ∧
      (req.blk_rq_pos.val + sector_sum ss req.segments < 2 ^ 64 →
        (mydisk_transfer ss dev req).calls[i]?
          = some (call_for req.rq_data_dir
              (req.blk_rq_pos.val + sector_sum ss (req.segments.take i))
              req.segments[i].buf (BV_LEN req.segments[i] / ss))) := by
  rw [mydisk_transfer_calls_eq]
  refine ⟨length_calls_from _ _ _ _ _, fun i hi => ?_⟩
  have hget := getElem?_calls_from ss req.rq_data_dir req.blk_rq_pos.val req.segments 0 i hi
  rw [Nat.zero_add] at hget
  refine ⟨hget, fun hfit => ?_⟩
  have hle := sector_sum_take_le ss req.segments i
  rw [hget, sector_t_wrap_of_lt (by omega)]
  rfl

/-- A write of a 1000-byte segment followed by a 512-byte segment at sector 10, sector size
512: the call for the second segment is made at sector 11 for one sector. -/
theorem mydisk_transfer_call_per_segment_witness :
    (mydisk_transfer 512 (List.replicate (1024 * 512) 0)
      ⟨WRITE, 10, 2, [⟨List.replicate 1000 7⟩, ⟨List.replicate 512 3⟩]⟩).calls[1]?
      = some (ramdevice_call.write 11 (List.replicate 512 3) 1) := by
  have h := ((mydisk_transfer_call_per_segment 512 (List.replicate (1024 * 512) 0)
    ⟨WRITE, 10, 2, [⟨List.replicate 1000 7⟩, ⟨List.replicate 512 3⟩]⟩).2 1
      (by simp only [List.length_cons, List.length_nil]; decide)).2
      (by
        simp only [sector_sum, segment_sectors, BV_LEN, List.length_replicate]
        decide)
  rw [h]
  simp only [List.take_succ_cons, List.take_zero, sector_sum, segment_sectors, BV_LEN,
    List.length_replicate, List.getElem_cons_succ, List.getElem_cons_zero, call_for]
  rfl

/-- Counterexample to claim C8 as stated: a write at sector 10 whose first segment is 100
bytes long (less than one 512-byte sector) makes its second call at sector 10 again, so the
address does not strictly advance. -/
theorem mydisk_transfer_not_strictly_advancing :
    ¬ strictly_advancing (mydisk_transfer 512 (List.replicate (1024 * 512) 0)
      ⟨WRITE, 10, 1, [⟨List.replicate 100 7⟩, ⟨List.replicate 512 3⟩]⟩).calls := by
  intro h
  have h01 := h 0 (ramdevice_call.write 10 (List.replicate 100 7) 0)
    (ramdevice_call.write 10 (List.replicate 512 3) 1)
    (by rw [mydisk_transfer_calls_eq]; rfl) (by rw [mydisk_transfer_calls_eq]; rfl)
  exact absurd h01.2 (Nat.lt_irrefl 10)

/-- Claim C8, amended: within one request whose sectors are addressable in `sector_t`, the
calls are made in list order and each call is made at the previous call's address plus the
previous segment's sector count `BV_LEN / MYDISK_SECTOR_SIZE`; the address never decreases, and
it increases exactly when the previous segment holds at least one whole sector. -/
theorem mydisk_transfer_addresses_advance (ss : Nat) (dev : ramdevice) (req : request)
    (hfit : req.blk_rq_pos.val + sector_sum ss req.segments < 2 ^ 64)
    (i : Nat) (hi : i + 1 < req.segments.length) :
    ∃ a b : ramdevice_call,
      (mydisk_transfer ss dev req).calls[i]? = some a ∧
      (mydisk_transfer ss dev req).calls[i + 1]? = some b ∧
      a.count = BV_LEN (req.segments[i]) / ss ∧
      b.address = a.address + a.count ∧
      a.address ≤ b.address ∧
      (a.address < b.address ↔ 0 < BV_LEN (req.segments[i]) / ss) := by
  have hi0 : i < req.segments.length := Nat.lt_of_succ_lt hi
  have hle := sector_sum_take_le ss req.segments (i + 1)
  have hsucc := sector_sum_take_succ ss req.segments i hi0
  have ha := getElem?_calls_from ss req.rq_data_dir req.blk_rq_pos.val req.segments 0 i hi0
  have hb := getElem?_calls_from ss req.rq_data_dir req.blk_rq_pos.val req.segments 0
    (i + 1) hi
  rw [Nat.zero_add, sector_t_wrap_of_lt (by omega)] at ha hb
  rw [mydisk_transfer_calls_eq]
  refine ⟨_, _, ha, hb, ?_, ?_, ?_, ?_⟩
  · rw [call_for_count]; rfl
  · rw [call_for_address, call_for_address, call_for_count, hsucc, Nat.add_assoc]
  · rw [call_for_address, call_for_address, hsucc]; omega
  · rw [call_for_address, call_for_address, hsucc]
    unfold segment_sectors
    omega

/-- A read at sector 10 into two 512-byte segments, sector size 512: the calls are made at
sectors 10 and 11. -/
theorem mydisk_transfer_addresses_advance_witness :
    ∃ a b : ramdevice_call,
      (mydisk_transfer 512 (List.replicate (1024 * 512) 0)
        ⟨READ, 10, 2, [⟨List.replicate 512 0⟩, ⟨List.replicate 512 0⟩]⟩).calls[0]? = some a ∧
      (mydisk_transfer 512 (List.replicate (1024 * 512) 0)
        ⟨READ, 10, 2, [⟨List.replicate 512 0⟩, ⟨List.replicate 512 0⟩]⟩).calls[0 + 1]?
          = some b ∧
      a.count = BV_LEN (⟨List.replicate 512 0⟩ : bio_vec) / 512 ∧
      b.address = a.address + a.count ∧
      a.address ≤ b.address ∧
      (a.address < b.address ↔ 0 < BV_LEN (⟨List.replicate 512 0⟩ : bio_vec) / 512) :=
  mydisk_transfer_addresses_advance 512 (List.replicate (1024 * 512) 0)
    ⟨READ, 10, 2, [⟨List.replicate 512 0⟩, ⟨List.replicate 512 0⟩]⟩
    (by
      simp only [sector_sum, segment_sectors, BV_LEN, List.length_replicate]
      decide)
    0 (by simp only [List.length_cons, List.length_nil]; decide)


/-! ## The two failure causes -/

theorem EIO_ne_zero : EIO ≠ 0 := by decide

/-- Claim C9: `mydisk_transfer` returns 0 or `-EIO` and nothing else; a misaligned segment
makes it return `-EIO`, and so does a mismatch between the summed sector counts (a sum that
`sector_t` can hold) and the request's sector count: the same value for either cause and for
both together. -/
theorem mydisk_transfer_status_kinds (ss : Nat) (dev : ramdevice) (req : request) :
    ((mydisk_transfer ss dev req).ret = 0 ∨ (mydisk_transfer ss dev req).ret = - EIO) ∧
    ((∃ bv ∈ req.segments, BV_LEN bv % ss ≠ 0) → (mydisk_transfer ss dev req).ret = - EIO) ∧
    (sector_sum ss req.segments < 2 ^ 64 →
      sector_sum ss req.segments ≠ req.blk_rq_sectors.val →
      (mydisk_transfer ss dev req).ret = - EIO) := by
  refine ⟨?_, ?_, ?_⟩
  · rw [mydisk_transfer_ret]
    split
    · exact Or.inr rfl
    · rcases transfer_loop_ret_cases ss req.rq_data_dir req.blk_rq_pos.val req.segments
        (transfer_init dev) with h | h
      · exact Or.inl h
      · exact Or.inr h
  · intro hmis
    rw [mydisk_transfer_ret]
    split
    · rfl
    · exact transfer_loop_ret_of_misaligned _ _ _ _ _ hmis
  · intro hfit hsum
    rw [mydisk_transfer_ret, sector_t_wrap_of_lt hfit, if_pos hsum]

/-- A misaligned write (one 1000-byte segment, 2 sectors asked) and an aligned read that falls
short (one 512-byte segment, 2 sectors asked) get the same status. -/
theorem mydisk_transfer_status_kinds_witness :
    (mydisk_transfer 512 (List.replicate (1024 * 512) 0)
      ⟨WRITE, 10, 2, [⟨List.replicate 1000 7⟩]⟩).ret
    = (mydisk_transfer 512 (List.replicate (1024 * 512) 0)
      ⟨READ, 10, 2, [⟨List.replicate 512 0⟩]⟩).ret := by
  rw [(mydisk_transfer_status_kinds 512 (List.replicate (1024 * 512) 0)
        ⟨WRITE, 10, 2, [⟨List.replicate 1000 7⟩]⟩).2.1
      ⟨⟨List.replicate 1000 7⟩, List.mem_singleton.mpr rfl,
        by simp only [BV_LEN, List.length_replicate]; decide⟩,
    (mydisk_transfer_status_kinds 512 (List.replicate (1024 * 512) 0)
        ⟨READ, 10, 2, [⟨List.replicate 512 0⟩]⟩).2.2
      (by simp only [sector_sum, segment_sectors, BV_LEN, List.length_replicate]; decide)
      (by simp only [sector_sum, segment_sectors, BV_LEN, List.length_replicate]; decide)]

/-- Claim C10: for a request without segments `mydisk_transfer` makes no backing-store call
and leaves the store as it was; it returns 0 exactly when the request's sector count is 0, and
`-EIO` for every other sector count. -/
theorem mydisk_transfer_no_segments (ss : Nat) (dev : ramdevice) (dir : Int)
    (start_sector : Fin (2 ^ 64)) (sector_cnt : Fin (2 ^ 32)) :
    (mydisk_transfer ss dev ⟨dir, start_sector, sector_cnt, []⟩).calls = [] ∧
    (mydisk_transfer ss dev ⟨dir, start_sector, sector_cnt, []⟩).dev = dev ∧
    ((mydisk_transfer ss dev ⟨dir, start_sector, sector_cnt, []⟩).ret = 0
      ↔ sector_cnt.val = 0) ∧
    (sector_cnt.val ≠ 0 →
      (mydisk_transfer ss dev ⟨dir, start_sector, sector_cnt, []⟩).ret = - EIO) := by
  have hret : (mydisk_transfer ss dev ⟨dir, start_sector, sector_cnt, []⟩).ret
      = if (0 : Nat) ≠ sector_cnt.val then - EIO else 0 := rfl
  refine ⟨rfl, rfl, ?_, ?_⟩
  · rw [hret]
    by_cases h : sector_cnt.val = 0
    · simp [h]
    · have h0 : (0 : Nat) ≠ sector_cnt.val := fun e => h e.symm
      simp [h0, h, EIO_ne_zero]
  · intro h
    have h0 : (0 : Nat) ≠ sector_cnt.val := fun e => h e.symm
    rw [hret, if_pos h0]

/-- A read without segments that asks for 3 sectors fails, and makes no call. -/
theorem mydisk_transfer_no_segments_witness :
    (mydisk_transfer 512 (List.replicate (1024 * 512) 0) ⟨READ, 10, 3, []⟩).ret = - EIO :=
  (mydisk_transfer_no_segments 512 (List.replicate (1024 * 512) 0) READ 10 3).2.2.2
    (by decide)


/-! ## Copies into the store and into buffers -/

theorem length_copy_into (mem : List u8) (off : Nat) (bytes : List u8) :
    (copy_into mem off bytes).length = mem.length := by
  simp only [copy_into, List.length_append, List.length_take, List.length_drop]
  omega

/-- A copy that fits replaces exactly the bytes it covers. -/
theorem copy_into_of_fits (mem : List u8) (off : Nat) (bytes : List u8)
    (h : off + bytes.length ≤ mem.length) :
    copy_into mem off bytes = mem.take off ++ bytes ++ mem.drop (off + bytes.length) := by
  have ht : bytes.take (mem.length - off) = bytes := List.take_of_length_le (by omega)
  unfold copy_into
  rw [ht]

/-- Two copies that fit, one right behind the other, are one copy of the two pieces. -/
theorem copy_into_copy_into (mem : List u8) (off : Nat) (x y : List u8)
    (h : off + x.length + y.length ≤ mem.length) :
    copy_into (copy_into mem off x) (off + x.length) y = copy_into mem off (x ++ y) := by
  have hlen : (mem.take off ++ x).length = off + x.length := by
    simp only [List.length_append, List.length_take]
    omega
  rw [copy_into_of_fits (copy_into mem off x) (off + x.length) y
      (by rw [length_copy_into]; exact h),
    copy_into_of_fits mem off x (by omega),
    copy_into_of_fits mem off (x ++ y) (by simp only [List.length_append]; omega)]
  rw [List.take_left' hlen]
  have hdrop : List.drop (off + x.length + y.length)
      (List.take off mem ++ x ++ List.drop (off + x.length) mem)
      = List.drop (off + x.length + y.length) mem := by
    rw [← hlen, List.drop_append, List.drop_drop, hlen]
  rw [hdrop]
  simp only [List.length_append, List.append_assoc, Nat.add_assoc]

/-- Reading back what a fitting copy put into the store. -/
theorem store_after_copy_into (mem : List u8) (off : Nat) (bytes : List u8)
    (h : off + bytes.length ≤ mem.length) :
    ((copy_into mem off bytes).drop off).take bytes.length = bytes := by
  have hlen : (mem.take off).length = off := by
    simp only [List.length_take]
    omega
  rw [copy_into_of_fits mem off bytes h, List.append_assoc, List.drop_left' hlen,
    List.take_left]

/-- A copy that fills a whole buffer leaves the copied bytes. -/
theorem copy_into_whole (buffer bytes : List u8) (h : bytes.length = buffer.length) :
    copy_into buffer 0 bytes = bytes := by
  rw [copy_into_of_fits buffer 0 bytes (by omega)]
  simp [h]

theorem length_store_sectors (ss : Nat) (dev : ramdevice) (s n : Nat)
    (h : (s + n) * ss ≤ dev.length) : (store_sectors ss dev s n).length = n * ss := by
  simp only [store_sectors, List.length_take, List.length_drop]
  have : (s + n) * ss = s * ss + n * ss := Nat.add_mul s n ss
  omega

theorem store_sectors_add (ss : Nat) (dev : ramdevice) (s m n : Nat) :
    store_sectors ss dev s (m + n)
      = store_sectors ss dev s m ++ store_sectors ss dev (s + m) n := by
  simp only [store_sectors]
  rw [Nat.add_mul m n ss, List.take_add, List.drop_drop, Nat.add_mul s m ss]

theorem concat_buffers_append (xs ys : List bio_vec) :
    concat_buffers (xs ++ ys) = concat_buffers xs ++ concat_buffers ys := by
  induction xs with
  | nil => rfl
  | cons bv rest ih => simp [concat_buffers, ih]

/-- A segment of aligned length holds exactly its sector count times the sector size. -/
theorem segment_sectors_mul (ss : Nat) (bv : bio_vec) (h : BV_LEN bv % ss = 0) :
    segment_sectors ss bv * ss = bv.buf.length :=
  Nat.div_mul_cancel (Nat.dvd_of_mod_eq_zero h)

theorem length_concat_buffers (ss : Nat) (segs : List bio_vec) (h : all_aligned ss segs) :
    (concat_buffers segs).length = sector_sum ss segs * ss := by
  induction segs with
  | nil => simp [concat_buffers, sector_sum]
  | cons bv rest ih =>
    have hbv : BV_LEN bv % ss = 0 := h bv (List.mem_cons_self _ _)
    have hrest : all_aligned ss rest := fun b hb => h b (List.mem_cons_of_mem _ hb)
    simp only [concat_buffers, sector_sum, List.length_append, ih hrest, Nat.add_mul,
      segment_sectors_mul ss bv hbv]

theorem capacity_mul_le (ss : Nat) (dev : ramdevice) (x : Nat)
    (h : x ≤ ramdevice_capacity ss dev) : x * ss ≤ dev.length :=
  Nat.le_trans (Nat.mul_le_mul_right ss h) (Nat.div_mul_le_self dev.length ss)


/-! ## The data a transfer moves -/

theorem copy_into_nil (mem : List u8) (off : Nat) : copy_into mem off [] = mem := by
  simp [copy_into]

theorem transfer_segment_write_dev (ss : Nat) (start : Nat) (st : transfer_state)
    (bv : bio_vec) :
    (transfer_segment ss WRITE start st bv).dev
      = ramdevice_write ss st.dev (sector_t_wrap (start + st.sector_offset)) bv.buf
          (segment_sectors ss bv) := by
  simp [transfer_segment, segment_sectors]

theorem transfer_segment_read_dev (ss : Nat) (dir : Int) (start : Nat) (st : transfer_state)
    (bv : bio_vec) (hd : dir ≠ WRITE) :
    (transfer_segment ss dir start st bv).dev = st.dev := by
  simp [transfer_segment, hd]

theorem transfer_segment_read_segments (ss : Nat) (dir : Int) (start : Nat)
    (st : transfer_state) (bv : bio_vec) (hd : dir ≠ WRITE) :
    (transfer_segment ss dir start st bv).segments
      = st.segments ++ [⟨ramdevice_read ss st.dev (sector_t_wrap (start + st.sector_offset))
          bv.buf (segment_sectors ss bv)⟩] := by
  simp [transfer_segment, hd, segment_sectors]

/-- Writing an aligned segment within the store copies the whole buffer to its sectors. -/
theorem ramdevice_write_aligned (ss : Nat) (dev : ramdevice) (addr : Nat) (bv : bio_vec)
    (h : BV_LEN bv % ss = 0) :
    ramdevice_write ss dev addr bv.buf (segment_sectors ss bv)
      = copy_into dev (addr * ss) bv.buf := by
  unfold ramdevice_write
  rw [segment_sectors_mul ss bv h, List.take_length]

/-- Reading an aligned segment within the store fills the whole buffer with its sectors. -/
theorem ramdevice_read_aligned (ss : Nat) (dev : ramdevice) (addr : Nat) (bv : bio_vec)
    (h : BV_LEN bv % ss = 0) (hcap : (addr + segment_sectors ss bv) * ss ≤ dev.length) :
    ramdevice_read ss dev addr bv.buf (segment_sectors ss bv)
      = store_sectors ss dev addr (segment_sectors ss bv) := by
  have hlen := length_store_sectors ss dev addr (segment_sectors ss bv) hcap
  rw [segment_sectors_mul ss bv h] at hlen
  exact copy_into_whole bv.buf _ hlen

/-- The store after the loop of an aligned write that stays within the store: the buffers, in
list order, lie from the first address on. -/
theorem transfer_loop_write_dev (ss : Nat) (start : Nat) (segs : List bio_vec)
    (st : transfer_state) (hal : all_aligned ss segs)
    (hfit : start + st.sector_offset + sector_sum ss segs < 2 ^ 64)
    (hcap : (start + st.sector_offset + sector_sum ss segs) * ss ≤ st.dev.length) :
    (transfer_loop ss WRITE start st segs).dev
      = copy_into st.dev ((start + st.sector_offset) * ss) (concat_buffers segs) := by
  induction segs generalizing st with
  | nil => simp [concat_buffers, copy_into_nil]
  | cons bv rest ih =>
    have hbv : BV_LEN bv % ss = 0 := hal bv (List.mem_cons_self _ _)
    have hrest : all_aligned ss rest := fun b hb => hal b (List.mem_cons_of_mem _ hb)
    simp only [sector_sum] at hfit hcap
    have hoff : (transfer_segment ss WRITE start st bv).sector_offset
        = st.sector_offset + segment_sectors ss bv := by
      rw [transfer_segment_sector_offset]
      exact sector_t_wrap_of_lt (by omega)
    have hdev : (transfer_segment ss WRITE start st bv).dev
        = copy_into st.dev ((start + st.sector_offset) * ss) bv.buf := by
      rw [transfer_segment_write_dev, sector_t_wrap_of_lt (by omega),
        ramdevice_write_aligned _ _ _ _ hbv]
    have hsplit : (start + st.sector_offset + (segment_sectors ss bv + sector_sum ss rest)) * ss
        = (start + st.sector_offset) * ss + bv.buf.length + (concat_buffers rest).length := by
      rw [length_concat_buffers ss rest hrest, ← segment_sectors_mul ss bv hbv]
      ring
    have hA : (start + (st.sector_offset + segment_sectors ss bv)) * ss
        = (start + st.sector_offset) * ss + bv.buf.length := by
      rw [← segment_sectors_mul ss bv hbv]
      ring
    rw [transfer_loop_cons, ih _ hrest (by rw [hoff]; omega)
      (by
        rw [hoff, hdev, length_copy_into]
        have e : start + (st.sector_offset + segment_sectors ss bv) + sector_sum ss rest
            = start + st.sector_offset + (segment_sectors ss bv + sector_sum ss rest) := by
          omega
        rw [e]
        exact hcap)]
    rw [hoff, hdev, hA, copy_into_copy_into _ _ _ _ (by rw [← hsplit]; exact hcap)]
    rfl

theorem transfer_loop_read_dev (ss : Nat) (dir : Int) (start : Nat) (segs : List bio_vec)
    (st : transfer_state) (hd : dir ≠ WRITE) :
    (transfer_loop ss dir start st segs).dev = st.dev := by
  induction segs generalizing st with
  | nil => rfl
  | cons bv rest ih => rw [transfer_loop_cons, ih, transfer_segment_read_dev _ _ _ _ _ hd]

/-- The buffers after the loop of an aligned read that stays within the store: in list order
they hold the sectors from the first address on. -/
theorem transfer_loop_read_segments (ss : Nat) (dir : Int) (start : Nat)
    (segs : List bio_vec) (st : transfer_state) (hd : dir ≠ WRITE)
    (hal : all_aligned ss segs)
    (hfit : start + st.sector_offset + sector_sum ss segs < 2 ^ 64)
    (hcap : (start + st.sector_offset + sector_sum ss segs) * ss ≤ st.dev.length) :
    concat_buffers (transfer_loop ss dir start st segs).segments
      = concat_buffers st.segments
        ++ store_sectors ss st.dev (start + st.sector_offset) (sector_sum ss segs) := by
  induction segs generalizing st with
  | nil => simp [sector_sum, store_sectors]
  | cons bv rest ih =>
    have hbv : BV_LEN bv % ss = 0 := hal bv (List.mem_cons_self _ _)
    have hrest : all_aligned ss rest := fun b hb => hal b (List.mem_cons_of_mem _ hb)
    simp only [sector_sum] at hfit hcap ⊢
    have hoff : (transfer_segment ss dir start st bv).sector_offset
        = st.sector_offset + segment_sectors ss bv := by
      rw [transfer_segment_sector_offset]
      exact sector_t_wrap_of_lt (by omega)
    have hdev := transfer_segment_read_dev ss dir start st bv hd
    have hone : (start + st.sector_offset + segment_sectors ss bv) * ss ≤ st.dev.length := by
      refine Nat.le_trans (Nat.mul_le_mul_right ss ?_) hcap
      omega
    have hsegs : (transfer_segment ss dir start st bv).segments
        = st.segments
          ++ [⟨store_sectors ss st.dev (start + st.sector_offset) (segment_sectors ss bv)⟩] := by
      rw [transfer_segment_read_segments _ _ _ _ _ hd, sector_t_wrap_of_lt (by omega),
        ramdevice_read_aligned _ _ _ _ hbv hone]
    have e : start + (st.sector_offset + segment_sectors ss bv) + sector_sum ss rest
        = start + st.sector_offset + (segment_sectors ss bv + sector_sum ss rest) := by
      omega
    rw [transfer_loop_cons, ih _ hrest (by rw [hoff]; omega)
      (by rw [hoff, hdev, e]; exact hcap)]
    rw [hoff, hdev, hsegs, concat_buffers_append, store_sectors_add, List.append_assoc]
    simp only [concat_buffers, List.append_nil, Nat.add_assoc]

/-- The loop keeps the segments in list order and each buffer at its length. -/
theorem transfer_loop_segment_lengths (ss : Nat) (dir : Int) (start : Nat)
    (segs : List bio_vec) (st : transfer_state) :
    (transfer_loop ss dir start st segs).segments.map BV_LEN
      = st.segments.map BV_LEN ++ segs.map BV_LEN := by
  induction segs generalizing st with
  | nil => simp
  | cons bv rest ih =>
    rw [transfer_loop_cons, ih]
    unfold transfer_segment
    by_cases hd : dir = WRITE
    · simp [hd]
    · simp [hd, BV_LEN, ramdevice_read, length_copy_into]


/-- The store after an aligned write that stays within an addressable store. -/
theorem mydisk_transfer_write_dev (ss : Nat) (dev : ramdevice) (req : request)
    (hdir : req.rq_data_dir = WRITE) (hal : all_aligned ss req.segments)
    (hsum : sector_sum ss req.segments = req.blk_rq_sectors.val)
    (hcap : req.blk_rq_pos.val + req.blk_rq_sectors.val ≤ ramdevice_capacity ss dev)
    (haddr : ramdevice_capacity ss dev < 2 ^ 64) :
    (mydisk_transfer ss dev req).dev
      = copy_into dev (req.blk_rq_pos.val * ss) (concat_buffers req.segments) := by
  have h := transfer_loop_write_dev ss req.blk_rq_pos.val req.segments (transfer_init dev) hal
    (by simp only [transfer_init, Nat.add_zero, hsum]; omega)
    (by
      simp only [transfer_init, Nat.add_zero, hsum]
      exact capacity_mul_le ss dev _ hcap)
  simp only [mydisk_transfer, hdir]
  rw [h]
  simp [transfer_init]

/-- The buffers after an aligned read that stays within an addressable store. -/
theorem mydisk_transfer_read_segments (ss : Nat) (dev : ramdevice) (req : request)
    (hdir : req.rq_data_dir ≠ WRITE) (hal : all_aligned ss req.segments)
    (hsum : sector_sum ss req.segments = req.blk_rq_sectors.val)
    (hcap : req.blk_rq_pos.val + req.blk_rq_sectors.val ≤ ramdevice_capacity ss dev)
    (haddr : ramdevice_capacity ss dev < 2 ^ 64) :
    concat_buffers (mydisk_transfer ss dev req).segments
      = store_sectors ss dev req.blk_rq_pos.val req.blk_rq_sectors.val := by
  have h := transfer_loop_read_segments ss req.rq_data_dir req.blk_rq_pos.val req.segments
    (transfer_init dev) hdir hal
    (by simp only [transfer_init, Nat.add_zero, hsum]; omega)
    (by
      simp only [transfer_init, Nat.add_zero, hsum]
      exact capacity_mul_le ss dev _ hcap)
  simp only [mydisk_transfer]
  rw [h, hsum]
  simp [transfer_init, concat_buffers]

theorem READ_ne_WRITE : READ ≠ WRITE := by decide

theorem ramdevice_capacity_replicate (ss n : Nat) (b : u8) :
    ramdevice_capacity ss (List.replicate n b) = n / ss := by
  unfold ramdevice_capacity
  rw [List.length_replicate]

/-- Claim C5: after an aligned write whose segments' sector counts sum to the request's sector
count `n` and whose sectors `[start_sector, start_sector + n)` lie within the capacity of a
store that `sector_t` can address, those sectors of the store hold the segments' buffers,
concatenated in list order. -/
theorem mydisk_transfer_write_stores_buffers (ss : Nat) (dev : ramdevice) (req : request)
    (hdir : req.rq_data_dir = WRITE) (hal : all_aligned ss req.segments)
    (hsum : sector_sum ss req.segments = req.blk_rq_sectors.val)
    (hcap : req.blk_rq_pos.val + req.blk_rq_sectors.val ≤ ramdevice_capacity ss dev)
    (haddr : ramdevice_capacity ss dev < 2 ^ 64) :
    store_sectors ss (mydisk_transfer ss dev req).dev req.blk_rq_pos.val
        req.blk_rq_sectors.val
      = concat_buffers req.segments := by
  have hlen : (concat_buffers req.segments).length = req.blk_rq_sectors.val * ss := by
    rw [length_concat_buffers ss _ hal, hsum]
  have hbytes := capacity_mul_le ss dev _ hcap
  rw [Nat.add_mul] at hbytes
  rw [mydisk_transfer_write_dev ss dev req hdir hal hsum hcap haddr]
  unfold store_sectors
  rw [← hlen]
  exact store_after_copy_into dev _ _ (by rw [hlen]; exact hbytes)

/-- The spec's scenario for C5: sector size 512, capacity 1024 sectors; one 1024-byte segment
written at sector 10 makes sectors 10 and 11 equal that segment's bytes. -/
theorem mydisk_transfer_write_stores_buffers_witness :
    store_sectors 512 (mydisk_transfer 512 (List.replicate (1024 * 512) 0)
        ⟨WRITE, 10, 2, [⟨List.replicate 1024 7⟩]⟩).dev 10 2
      = List.replicate 1024 7 := by
  have h := mydisk_transfer_write_stores_buffers 512 (List.replicate (1024 * 512) 0)
    ⟨WRITE, 10, 2, [⟨List.replicate 1024 7⟩]⟩ rfl
    (by
      intro bv hbv
      rw [List.mem_singleton] at hbv
      subst hbv
      simp only [BV_LEN, List.length_replicate])
    (by simp only [sector_sum, segment_sectors, BV_LEN, List.length_replicate]; rfl)
    (by rw [ramdevice_capacity_replicate]; decide)
    (by rw [ramdevice_capacity_replicate]; decide)
  simpa only [concat_buffers, List.append_nil] using h

/-- Claim C6: after an aligned read whose segments' sector counts sum to the request's sector
count `n` and whose sectors `[start_sector, start_sector + n)` lie within the capacity of a
store that `sector_t` can address, the segments' buffers, concatenated in list order, hold
those sectors of the store; the buffers keep their order and lengths, and the store is
unchanged. -/
theorem mydisk_transfer_read_fills_buffers (ss : Nat) (dev : ramdevice) (req : request)
    (hdir : req.rq_data_dir = READ) (hal : all_aligned ss req.segments)
    (hsum : sector_sum ss req.segments = req.blk_rq_sectors.val)
    (hcap : req.blk_rq_pos.val + req.blk_rq_sectors.val ≤ ramdevice_capacity ss dev)
    (haddr : ramdevice_capacity ss dev < 2 ^ 64) :
    concat_buffers (mydisk_transfer ss dev req).segments
        = store_sectors ss dev req.blk_rq_pos.val req.blk_rq_sectors.val ∧
    (mydisk_transfer ss dev req).segments.map BV_LEN = req.segments.map BV_LEN ∧
    (mydisk_transfer ss dev req).dev = dev := by
  have hd : req.rq_data_dir ≠ WRITE := by rw [hdir]; exact READ_ne_WRITE
  refine ⟨mydisk_transfer_read_segments ss dev req hd hal hsum hcap haddr, ?_, ?_⟩
  · simp only [mydisk_transfer]
    rw [transfer_loop_segment_lengths]
    simp [transfer_init]
  · simp only [mydisk_transfer]
    rw [transfer_loop_read_dev _ _ _ _ _ hd]
    rfl

/-- A read of sectors 1 and 2 (sector size 2) into two 2-byte buffers. -/
theorem mydisk_transfer_read_fills_buffers_witness :
    (mydisk_transfer 2 [1, 2, 3, 4, 5, 6, 7, 8] ⟨READ, 1, 2, [⟨[0, 0]⟩, ⟨[0, 0]⟩]⟩).segments
      = [⟨[3, 4]⟩, ⟨[5, 6]⟩] ∧
    concat_buffers (mydisk_transfer 2 [1, 2, 3, 4, 5, 6, 7, 8]
        ⟨READ, 1, 2, [⟨[0, 0]⟩, ⟨[0, 0]⟩]⟩).segments
      = store_sectors 2 [1, 2, 3, 4, 5, 6, 7, 8] 1 2 :=
  ⟨by decide,
    (mydisk_transfer_read_fills_buffers 2 [1, 2, 3, 4, 5, 6, 7, 8]
      ⟨READ, 1, 2, [⟨[0, 0]⟩, ⟨[0, 0]⟩]⟩ rfl (by decide) (by decide) (by decide)
      (by decide)).1⟩

/-- Claim C4: round trip. For a start sector `s` and a count `n` with `s + n` within the
capacity of a store that `sector_t` can address, and two lists of aligned segments that each
cover `n` sectors, a write of `[s, s + n)` from the first list followed by a read of
`[s, s + n)` into the second list returns success twice and leaves the read buffers,
concatenated in list order, equal to the written buffers, concatenated in list order. -/
theorem mydisk_transfer_round_trip (ss : Nat) (dev : ramdevice) (s : Fin (2 ^ 64))
    (n : Fin (2 ^ 32)) (wsegs rsegs : List bio_vec)
    (hw : all_aligned ss wsegs) (hr : all_aligned ss rsegs)
    (hwsum : sector_sum ss wsegs = n.val) (hrsum : sector_sum ss rsegs = n.val)
    (hcap : s.val + n.val ≤ ramdevice_capacity ss dev)
    (haddr : ramdevice_capacity ss dev < 2 ^ 64) :
    (mydisk_transfer ss dev ⟨WRITE, s, n, wsegs⟩).ret = 0 ∧
    (mydisk_transfer ss (mydisk_transfer ss dev ⟨WRITE, s, n, wsegs⟩).dev
      ⟨READ, s, n, rsegs⟩).ret = 0 ∧
    concat_buffers (mydisk_transfer ss (mydisk_transfer ss dev ⟨WRITE, s, n, wsegs⟩).dev
      ⟨READ, s, n, rsegs⟩).segments = concat_buffers wsegs := by
  have hn : n.val < 2 ^ 64 := Nat.lt_trans n.isLt (by decide)
  have hret : ∀ (d : ramdevice) (dir : Int) (segs : List bio_vec), all_aligned ss segs →
      sector_sum ss segs = n.val → (mydisk_transfer ss d ⟨dir, s, n, segs⟩).ret = 0 := by
    intro d dir segs hal hsum
    rw [mydisk_transfer_ret]
    simp only [hsum, sector_t_wrap_of_lt hn, ne_eq, not_true_eq_false, if_false]
    rw [transfer_loop_ret_of_aligned _ _ _ _ _ hal]
    rfl
  have hwdev := mydisk_transfer_write_dev ss dev ⟨WRITE, s, n, wsegs⟩ rfl hw hwsum hcap haddr
  have hlen : (concat_buffers wsegs).length = n.val * ss := by
    rw [length_concat_buffers ss _ hw, hwsum]
  have hbytes := capacity_mul_le ss dev _ hcap
  rw [Nat.add_mul] at hbytes
  have hcap2 : ramdevice_capacity ss (mydisk_transfer ss dev ⟨WRITE, s, n, wsegs⟩).dev
      = ramdevice_capacity ss dev := by
    rw [hwdev]
    simp only [ramdevice_capacity, length_copy_into]
  refine ⟨hret dev WRITE wsegs hw hwsum, hret _ READ rsegs hr hrsum, ?_⟩
  rw [mydisk_transfer_read_segments ss _ ⟨READ, s, n, rsegs⟩ READ_ne_WRITE hr hrsum
    (by rw [hcap2]; exact hcap) (by rw [hcap2]; exact haddr)]
  rw [hwdev]
  unfold store_sectors
  show List.take (n.val * ss)
    (List.drop (s.val * ss) (copy_into dev (s.val * ss) (concat_buffers wsegs))) = _
  rw [← hlen]
  exact store_after_copy_into dev _ _ (by rw [hlen]; exact hbytes)

/-- A round trip with sector size 2: sectors 1 and 2 are written from one 4-byte segment and
read back into two 2-byte segments. -/
theorem mydisk_transfer_round_trip_witness :
    (mydisk_transfer 2 [0, 0, 0, 0, 0, 0, 0, 0] ⟨WRITE, 1, 2, [⟨[9, 8, 7, 6]⟩]⟩).ret = 0 ∧
    (mydisk_transfer 2 (mydisk_transfer 2 [0, 0, 0, 0, 0, 0, 0, 0]
        ⟨WRITE, 1, 2, [⟨[9, 8, 7, 6]⟩]⟩).dev ⟨READ, 1, 2, [⟨[0, 0]⟩, ⟨[0, 0]⟩]⟩).ret = 0 ∧
    concat_buffers (mydisk_transfer 2 (mydisk_transfer 2 [0, 0, 0, 0, 0, 0, 0, 0]
        ⟨WRITE, 1, 2, [⟨[9, 8, 7, 6]⟩]⟩).dev ⟨READ, 1, 2, [⟨[0, 0]⟩, ⟨[0, 0]⟩]⟩).segments
      = concat_buffers [⟨[9, 8, 7, 6]⟩] :=
  mydisk_transfer_round_trip 2 [0, 0, 0, 0, 0, 0, 0, 0] 1 2 [⟨[9, 8, 7, 6]⟩]
    [⟨[0, 0]⟩, ⟨[0, 0]⟩] (by decide) (by decide) (by decide) (by decide) (by decide)
    (by decide)

/-! ## The request queue -/

theorem mydisk_request_loop_eq (ss : Nat) (q : List request) (dev : ramdevice)
    (log : List queue_event) :
    mydisk_request_loop ss q dev log
      = { queue := [], dev := fifo_store ss dev q, log := log ++ fifo_log ss dev q } := by
  induction q generalizing dev log with
  | nil => rfl
  | cons req rest ih =>
    simp only [mydisk_request_loop, ih, fifo_store, fifo_log, List.foldl_cons,
      List.append_assoc, List.cons_append, List.nil_append]

theorem completion_statuses_fifo_log (ss : Nat) (q : List request) (dev : ramdevice) :
    completion_statuses (fifo_log ss dev q) = fifo_statuses ss dev q := by
  induction q generalizing dev with
  | nil => rfl
  | cons req rest ih => simp only [fifo_log, completion_statuses, fifo_statuses, ih]

theorem fetched_requests_fifo_log (ss : Nat) (q : List request) (dev : ramdevice) :
    fetched_requests (fifo_log ss dev q) = q := by
  induction q generalizing dev with
  | nil => rfl
  | cons req rest ih => simp only [fifo_log, fetched_requests, ih]

theorem length_fifo_statuses (ss : Nat) (q : List request) (dev : ramdevice) :
    (fifo_statuses ss dev q).length = q.length := by
  induction q generalizing dev with
  | nil => rfl
  | cons req rest ih => simp only [fifo_statuses, List.length_cons, ih]

/-- Claim C11: for every finite queue `mydisk_request` returns, with the queue empty. It
fetches every request exactly once, in queue order, and completes each one with its own
transfer's return value before it fetches the next. The statuses passed to
`__blk_end_request_all` are, in order, those of `mydisk_transfer` run on each request against
the store the previous request left, one per request, and the final store is the left fold of
the per-request transfers. -/
theorem mydisk_request_fifo (ss : Nat) (q : List request) (dev : ramdevice) :
    (mydisk_request ss q dev).queue = [] ∧
    fetched_requests (mydisk_request ss q dev).log = q ∧
    (mydisk_request ss q dev).log = fifo_log ss dev q ∧
    completion_statuses (mydisk_request ss q dev).log = fifo_statuses ss dev q ∧
    (completion_statuses (mydisk_request ss q dev).log).length = q.length ∧
    (mydisk_request ss q dev).dev
      = q.foldl (fun d req => (mydisk_transfer ss d req).dev) dev := by
  have h : mydisk_request ss q dev
      = { queue := [], dev := fifo_store ss dev q, log := fifo_log ss dev q } := by
    rw [mydisk_request, mydisk_request_loop_eq]
    rfl
  rw [h]
  refine ⟨rfl, fetched_requests_fifo_log ss q dev, rfl, completion_statuses_fifo_log ss q dev,
    ?_, rfl⟩
  show (completion_statuses (fifo_log ss dev q)).length = q.length
  rw [completion_statuses_fifo_log, length_fifo_statuses]

/-! ## What the status depends on -/

theorem sector_sum_eq_sum_map (ss : Nat) (segs : List bio_vec) :
    sector_sum ss segs = ((segs.map BV_LEN).map (fun l => l / ss)).sum := by
  induction segs with
  | nil => rfl
  | cons bv rest ih => simp only [sector_sum, segment_sectors, List.map_cons, List.sum_cons, ih]

theorem misaligned_iff_map (ss : Nat) (segs : List bio_vec) :
    (∃ bv ∈ segs, BV_LEN bv % ss ≠ 0) ↔ (∃ l ∈ segs.map BV_LEN, l % ss ≠ 0) := by
  constructor
  · rintro ⟨bv, hbv, hne⟩
    exact ⟨BV_LEN bv, List.mem_map.mpr ⟨bv, hbv, rfl⟩, hne⟩
  · rintro ⟨l, hl, hne⟩
    obtain ⟨bv, hbv, rfl⟩ := List.mem_map.mp hl
    exact ⟨bv, hbv, hne⟩

/-- The return value of `mydisk_transfer`, computed from the byte lengths and the sector count
alone. -/
theorem mydisk_transfer_ret_eq_status_of_lengths (ss : Nat) (dev : ramdevice)
    (req : request) :
    (mydisk_transfer ss dev req).ret
      = status_of_lengths ss (req.segments.map BV_LEN) req.blk_rq_sectors.val := by
  rw [mydisk_transfer_ret, status_of_lengths, ← sector_sum_eq_sum_map]
  by_cases hsum : sector_t_wrap (sector_sum ss req.segments) ≠ req.blk_rq_sectors.val
  · rw [if_pos hsum, if_pos hsum]
  · rw [if_neg hsum, if_neg hsum]
    by_cases hmis : ∃ bv ∈ req.segments, BV_LEN bv % ss ≠ 0
    · rw [transfer_loop_ret_of_misaligned _ _ _ _ _ hmis,
        if_pos ((misaligned_iff_map ss req.segments).mp hmis)]
    · have hal : all_aligned ss req.segments := by
        intro bv hbv
        by_contra hne
        exact hmis ⟨bv, hbv, hne⟩
      rw [transfer_loop_ret_of_aligned _ _ _ _ _ hal,
        if_neg (fun h => hmis ((misaligned_iff_map ss req.segments).mpr h))]
      rfl

/-- Claim C18: the status `mydisk_transfer` returns is a function of the list of segment byte
lengths and of the sector count only: two requests with the same byte lengths and the same
sector count get the same status, whatever their directions, start sectors and buffer
contents and whatever the two stores hold. -/
theorem mydisk_transfer_status_of_lengths_only (ss : Nat) (dev dev' : ramdevice)
    (req req' : request)
    (hlen : req.segments.map BV_LEN = req'.segments.map BV_LEN)
    (hcnt : req.blk_rq_sectors = req'.blk_rq_sectors) :
    (mydisk_transfer ss dev req).ret = (mydisk_transfer ss dev' req').ret := by
  rw [mydisk_transfer_ret_eq_status_of_lengths, mydisk_transfer_ret_eq_status_of_lengths,
    hlen, hcnt]

/-- A write at sector 1 and a read at sector 2, on different stores and with different
buffer contents but the same byte lengths and sector count, get the same status. -/
theorem mydisk_transfer_status_of_lengths_only_witness :
    (mydisk_transfer 2 [0, 0, 0, 0, 0, 0, 0, 0] ⟨WRITE, 1, 2, [⟨[9, 8]⟩, ⟨[7, 6, 5]⟩]⟩).ret
      = (mydisk_transfer 2 [1, 2, 3, 4, 5, 6] ⟨READ, 2, 2, [⟨[0, 0]⟩, ⟨[0, 0, 0]⟩]⟩).ret :=
  mydisk_transfer_status_of_lengths_only 2 _ _ _ _ (by decide) (by decide)

/-! ## Capacity -/

/-- Claim C12: `mydisk_transfer` makes no capacity check. For a request with aligned segments
whose sector counts sum to its sector count it returns 0 and makes its call for each segment
at the computed address (`start_sector` plus the earlier sector counts, in `sector_t`), with
no condition on the store: also when `start_sector` plus the sector count exceeds the
capacity. Status and calls are the same against every store, so they do not depend on the
capacity. -/
theorem mydisk_transfer_no_capacity_check (ss : Nat) (dev : ramdevice) (req : request)
    (hal : all_aligned ss req.segments)
    (hsum : sector_sum ss req.segments = req.blk_rq_sectors.val) :
    (mydisk_transfer ss dev req).ret = 0 ∧
    (mydisk_transfer ss dev req).calls.length = req.segments.length ∧
    (∀ (i : Nat) (hi : i < req.segments.length),
      (mydisk_transfer ss dev req).calls[i]?
        = some (call_for req.rq_data_dir
            (sector_t_wrap (req.blk_rq_pos.val + sector_sum ss (req.segments.take i)))
            req.segments[i].buf (BV_LEN req.segments[i] / ss))) ∧
    (∀ dev' : ramdevice,
      (mydisk_transfer ss dev' req).ret = (mydisk_transfer ss dev req).ret ∧
      (mydisk_transfer ss dev' req).calls = (mydisk_transfer ss dev req).calls) := by
  have hlt : req.blk_rq_sectors.val < 2 ^ 64 :=
    Nat.lt_trans req.blk_rq_sectors.isLt (by decide)
  have hret : ∀ d : ramdevice, (mydisk_transfer ss d req).ret = 0 := by
    intro d
    rw [mydisk_transfer_ret, hsum, sector_t_wrap_of_lt hlt]
    simp only [ne_eq, not_true_eq_false, if_false]
    rw [transfer_loop_ret_of_aligned _ _ _ _ _ hal]
    rfl
  refine ⟨hret dev, ?_, ?_, ?_⟩
  · rw [mydisk_transfer_calls_eq]
    exact length_calls_from _ _ _ _ _
  · intro i hi
    have hget := getElem?_calls_from ss req.rq_data_dir req.blk_rq_pos.val req.segments 0 i hi
    rw [Nat.zero_add] at hget
    rw [mydisk_transfer_calls_eq]
    exact hget
  · intro dev'
    refine ⟨by rw [hret dev', hret dev], ?_⟩
    rw [mydisk_transfer_calls_eq, mydisk_transfer_calls_eq]

/-- A store of 4 sectors of 512 bytes: a write of 2 sectors at sector 10, past the capacity,
returns 0. -/
theorem mydisk_transfer_no_capacity_check_witness :
    ramdevice_capacity 512 (List.replicate (4 * 512) 0) < 10 + 2 ∧
    (mydisk_transfer 512 (List.replicate (4 * 512) 0)
      ⟨WRITE, 10, 2, [⟨List.replicate 1024 7⟩]⟩).ret = 0 :=
  ⟨by rw [ramdevice_capacity_replicate]; decide,
    (mydisk_transfer_no_capacity_check 512 (List.replicate (4 * 512) 0)
      ⟨WRITE, 10, 2, [⟨List.replicate 1024 7⟩]⟩
      (by
        intro bv hbv
        rw [List.mem_singleton] at hbv
        subst hbv
        simp only [BV_LEN, List.length_replicate])
      (by simp only [sector_sum, segment_sectors, BV_LEN, List.length_replicate]; rfl)).1⟩

theorem sector_t_wrap_le (x : Nat) : sector_t_wrap x ≤ x := Nat.mod_le x _

/-- A request that came back with 0 has summed sector counts equal to its sector count,
provided `sector_t` can hold the sum. -/
theorem sector_sum_eq_of_ret_zero (ss : Nat) (dev : ramdevice) (req : request)
    (hfit : sector_sum ss req.segments < 2 ^ 64)
    (hret : (mydisk_transfer ss dev req).ret = 0) :
    sector_sum ss req.segments = req.blk_rq_sectors.val := by
  by_contra hne
  rw [mydisk_transfer_ret, sector_t_wrap_of_lt hfit, if_pos hne] at hret
  exact absurd hret (by decide)

/-- Every call of a transfer ends at or before `start_sector` plus the summed sector
counts. -/
theorem mydisk_transfer_call_range (ss : Nat) (dev : ramdevice) (req : request)
    (c : ramdevice_call) (hc : c ∈ (mydisk_transfer ss dev req).calls) :
    c.address + c.count ≤ req.blk_rq_pos.val + sector_sum ss req.segments := by
  rw [mydisk_transfer_calls_eq] at hc
  obtain ⟨i, hi⟩ := List.mem_iff_getElem?.mp hc
  have hlen : i < req.segments.length := by
    have h := (List.getElem?_eq_some_iff.mp hi).1
    rwa [length_calls_from] at h
  have hget := getElem?_calls_from ss req.rq_data_dir req.blk_rq_pos.val req.segments 0 i hlen
  rw [hi, Nat.zero_add] at hget
  have hceq := Option.some.inj hget
  have hle := sector_sum_take_le ss req.segments (i + 1)
  have hsucc := sector_sum_take_succ ss req.segments i hlen
  have hw := sector_t_wrap_le (req.blk_rq_pos.val + sector_sum ss (req.segments.take i))
  rw [hceq, call_for_address, call_for_count]
  omega

/-- Claim C14: when `mydisk_transfer` returns 0 for a request (whose summed sector counts
`sector_t` can hold) with `start_sector` plus sector count within the capacity, every call it
makes covers sectors `[address, address + count)` within `[0, capacity)`. For a request that
ends in `-EIO` this fails: with sector size 512 and capacity 1024, a write of 1 sector at
sector 1023 whose one segment holds 2 sectors has `start_sector` plus sector count within the
capacity, and its call reaches past the capacity. -/
theorem mydisk_transfer_calls_within_capacity :
    (∀ (ss : Nat) (dev : ramdevice) (req : request) (capacity_sectors : Nat),
      sector_sum ss req.segments < 2 ^ 64 →
      (mydisk_transfer ss dev req).ret = 0 →
      req.blk_rq_pos.val + req.blk_rq_sectors.val ≤ capacity_sectors →
      ∀ c ∈ (mydisk_transfer ss dev req).calls, c.address + c.count ≤ capacity_sectors) ∧
    (∃ (dev : ramdevice) (req : request),
      req.blk_rq_pos.val + req.blk_rq_sectors.val ≤ ramdevice_capacity 512 dev ∧
      (mydisk_transfer 512 dev req).ret = - EIO ∧
      req.blk_rq_sectors.val < sector_sum 512 req.segments ∧
      ∃ c ∈ (mydisk_transfer 512 dev req).calls,
        ramdevice_capacity 512 dev < c.address + c.count) := by
  constructor
  · intro ss dev req capacity_sectors hfit hret hcap c hc
    have hsum := sector_sum_eq_of_ret_zero ss dev req hfit hret
    have hrange := mydisk_transfer_call_range ss dev req c hc
    omega
  · refine ⟨List.replicate (1024 * 512) 0, ⟨WRITE, 1023, 1, [⟨List.replicate 1024 7⟩]⟩,
      ?_, ?_, ?_, ?_⟩
    · rw [ramdevice_capacity_replicate]
      decide
    · rw [mydisk_transfer_ret, if_pos]
      simp only [sector_sum, segment_sectors, BV_LEN, List.length_replicate, sector_t_wrap]
      decide
    · simp only [sector_sum, segment_sectors, BV_LEN, List.length_replicate]
      decide
    · refine ⟨call_for WRITE (sector_t_wrap (1023 + 0)) (List.replicate 1024 7)
        (segment_sectors 512 ⟨List.replicate 1024 7⟩), ?_, ?_⟩
      · rw [mydisk_transfer_calls_eq]
        exact List.mem_cons_self _ _
      · rw [ramdevice_capacity_replicate, call_for_address, call_for_count]
        simp only [segment_sectors, BV_LEN, List.length_replicate, sector_t_wrap]
        decide

/-- The spec's successful scenario: a write of 2 sectors at sector 10 from one 1024-byte
segment, capacity 1024; its one call covers sectors 10 and 11. -/
theorem mydisk_transfer_calls_within_capacity_witness :
    ∀ c ∈ (mydisk_transfer 512 (List.replicate (1024 * 512) 0)
        ⟨WRITE, 10, 2, [⟨List.replicate 1024 7⟩]⟩).calls, c.address + c.count ≤ 1024 :=
  mydisk_transfer_calls_within_capacity.1 512 (List.replicate (1024 * 512) 0)
    ⟨WRITE, 10, 2, [⟨List.replicate 1024 7⟩]⟩ 1024
    (by simp only [sector_sum, segment_sectors, BV_LEN, List.length_replicate]; decide)
    (by
      rw [mydisk_transfer_ret_eq_status_of_lengths]
      simp only [status_of_lengths, List.map_cons, List.map_nil, BV_LEN, List.length_replicate,
        List.sum_cons, List.sum_nil, sector_t_wrap]
      decide)
    (by decide)

/-! ## Frame -/

/-- A copy leaves every byte outside the range it covers as it was. -/
theorem getElem?_copy_into_of_outside (mem : List u8) (off : Nat) (bytes : List u8) (k : Nat)
    (hk : k < off ∨ off + bytes.length ≤ k) :
    (copy_into mem off bytes)[k]? = mem[k]? := by
  by_cases hlen : mem.length ≤ k
  · rw [List.getElem?_eq_none hlen,
      List.getElem?_eq_none (by rw [length_copy_into]; exact hlen)]
  · have hklt : k < mem.length := Nat.lt_of_not_le hlen
    rcases hk with hk | hk
    · have h1 : k < (mem.take off).length := by
        rw [List.length_take]
        omega
      unfold copy_into
      rw [List.append_assoc, List.getElem?_append_left h1, List.getElem?_take_of_lt hk]
    · have ht : bytes.take (mem.length - off) = bytes := List.take_of_length_le (by omega)
      have h1 : (mem.take off ++ bytes).length = off + bytes.length := by
        rw [List.length_append, List.length_take]
        omega
      unfold copy_into
      rw [ht, List.getElem?_append_right (by rw [h1]; exact hk), h1, List.getElem?_drop]
      congr 1
      omega

theorem transfer_loop_dev_length (ss : Nat) (dir : Int) (start : Nat) (segs : List bio_vec)
    (st : transfer_state) :
    (transfer_loop ss dir start st segs).dev.length = st.dev.length := by
  induction segs generalizing st with
  | nil => rfl
  | cons bv rest ih =>
    rw [transfer_loop_cons, ih]
    unfold transfer_segment
    by_cases hd : dir = WRITE
    · simp [hd, ramdevice_write, length_copy_into]
    · simp [hd]

/-- The bytes a write loop leaves alone: all those before its first address and all those
from the end of its last segment's sectors on. -/
theorem transfer_loop_write_frame (ss : Nat) (start : Nat) (segs : List bio_vec)
    (st : transfer_state)
    (hfit : start + st.sector_offset + sector_sum ss segs < 2 ^ 64) (k : Nat)
    (hk : k < (start + st.sector_offset) * ss
      ∨ (start + st.sector_offset + sector_sum ss segs) * ss ≤ k) :
    (transfer_loop ss WRITE start st segs).dev[k]? = st.dev[k]? := by
  induction segs generalizing st with
  | nil => rfl
  | cons bv rest ih =>
    simp only [sector_sum] at hfit hk
    have hoff : (transfer_segment ss WRITE start st bv).sector_offset
        = st.sector_offset + segment_sectors ss bv := by
      rw [transfer_segment_sector_offset]
      exact sector_t_wrap_of_lt (by omega)
    have hdev : (transfer_segment ss WRITE start st bv).dev
        = copy_into st.dev ((start + st.sector_offset) * ss)
            (bv.buf.take (segment_sectors ss bv * ss)) := by
      rw [transfer_segment_write_dev, sector_t_wrap_of_lt (by omega)]
      rfl
    have htake : (bv.buf.take (segment_sectors ss bv * ss)).length
        ≤ segment_sectors ss bv * ss := by
      rw [List.length_take]
      exact Nat.min_le_left _ _
    have e1 : (start + (st.sector_offset + segment_sectors ss bv)) * ss
        = (start + st.sector_offset) * ss + segment_sectors ss bv * ss := by ring
    have e2 : (start + (st.sector_offset + segment_sectors ss bv) + sector_sum ss rest) * ss
        = (start + st.sector_offset) * ss + segment_sectors ss bv * ss
          + sector_sum ss rest * ss := by ring
    have e3 : (start + st.sector_offset + (segment_sectors ss bv + sector_sum ss rest)) * ss
        = (start + st.sector_offset) * ss + segment_sectors ss bv * ss
          + sector_sum ss rest * ss := by ring
    rw [e3] at hk
    rw [transfer_loop_cons, ih _ (by rw [hoff]; omega) (by rw [hoff, e1, e2]; omega), hdev]
    exact getElem?_copy_into_of_outside _ _ _ _ (by omega)

/-- Claim C17: frame. A write request, well-formed or not, whose accessed sectors
`[start_sector, start_sector + sum of BV_LEN / MYDISK_SECTOR_SIZE)` lie within the capacity of
a store that `sector_t` can address leaves the store at its length and every byte outside
those sectors as it was; a read request leaves the whole store as it was. -/
theorem mydisk_transfer_frame (ss : Nat) (dev : ramdevice) (req : request) :
    (req.rq_data_dir = WRITE →
      req.blk_rq_pos.val + sector_sum ss req.segments ≤ ramdevice_capacity ss dev →
      ramdevice_capacity ss dev < 2 ^ 64 →
      (mydisk_transfer ss dev req).dev.length = dev.length ∧
      ∀ k : Nat, (k < req.blk_rq_pos.val * ss
          ∨ (req.blk_rq_pos.val + sector_sum ss req.segments) * ss ≤ k) →
        (mydisk_transfer ss dev req).dev[k]? = dev[k]?) ∧
    (req.rq_data_dir = READ → (mydisk_transfer ss dev req).dev = dev) := by
  constructor
  · intro hdir hcap haddr
    refine ⟨transfer_loop_dev_length _ _ _ _ _, fun k hk => ?_⟩
    have h := transfer_loop_write_frame ss req.blk_rq_pos.val req.segments (transfer_init dev)
      (by simp only [transfer_init, Nat.add_zero]; omega) k
      (by simpa only [transfer_init, Nat.add_zero] using hk)
    simp only [mydisk_transfer, hdir]
    exact h
  · intro hdir
    have hd : req.rq_data_dir ≠ WRITE := by rw [hdir]; exact READ_ne_WRITE
    simp only [mydisk_transfer]
    rw [transfer_loop_read_dev _ _ _ _ _ hd]
    rfl

/-- A misaligned write of 3 bytes at sector 1 (sector size 2) on a store of 4 sectors: the
bytes of sectors 0, 2 and 3 stay. -/
theorem mydisk_transfer_frame_witness :
    (mydisk_transfer 2 [1, 2, 3, 4, 5, 6, 7, 8] ⟨WRITE, 1, 1, [⟨[9, 9, 9]⟩]⟩).dev
      = [1, 2, 9, 9, 5, 6, 7, 8] ∧
    (mydisk_transfer 2 [1, 2, 3, 4, 5, 6, 7, 8] ⟨WRITE, 1, 1, [⟨[9, 9, 9]⟩]⟩).dev[5]?
      = ([1, 2, 3, 4, 5, 6, 7, 8] : ramdevice)[5]? ∧
    (mydisk_transfer 2 [1, 2, 3, 4, 5, 6, 7, 8] ⟨READ, 1, 1, [⟨[0, 0]⟩]⟩).dev
      = [1, 2, 3, 4, 5, 6, 7, 8] :=
  ⟨by decide,
    ((mydisk_transfer_frame 2 [1, 2, 3, 4, 5, 6, 7, 8] ⟨WRITE, 1, 1, [⟨[9, 9, 9]⟩]⟩).1 rfl
      (by decide) (by decide)).2 5 (Or.inr (by decide)),
    (mydisk_transfer_frame 2 [1, 2, 3, 4, 5, 6, 7, 8] ⟨READ, 1, 1, [⟨[0, 0]⟩]⟩).2 rfl⟩

/-! ## `mydisk_init` and `mydisk_open` -/

/-- A value between 0 and `2 ^ 32` survives the conversion to `unsigned int`. -/
theorem to_u_int_of_nonneg (x : Int) (h0 : 0 ≤ x) (h1 : x < 2 ^ 32) :
    (to_u_int x : Int) = x := by
  unfold to_u_int
  rw [Int.emod_eq_of_lt h0 h1]
  exact Int.toNat_of_nonneg h0

theorem to_u_int_pos (x : Int) (h0 : 0 < x) (h1 : x < 2 ^ 32) : ¬ to_u_int x ≤ 0 := by
  have h := to_u_int_of_nonneg x (Int.le_of_lt h0) h1
  omega

/-- Claim C13: when `ramdevice_init` returns a negative value, `mydisk_init` returns that
value and has made no other call (no major number registered, no queue, no disk, no
`ramdevice_cleanup`). When `ramdevice_init` returns an `int` `c ≥ 0` and the later steps
succeed (`register_blkdev` returns a major number, `blk_init_queue` and `alloc_disk` return
pointers), `mydisk_init` returns 0 with `mydisk_dev.size` equal to `c` and the capacity of the
disk set to `c`. -/
theorem mydisk_init_backing_store (env : init_env) :
    (env.ramdevice_init < 0 →
      (mydisk_init env).ret = env.ramdevice_init ∧
      (mydisk_init env).calls = [init_call.ramdevice_init]) ∧
    (0 ≤ env.ramdevice_init → env.ramdevice_init < 2 ^ 31 →
      0 < env.register_blkdev → env.register_blkdev < 2 ^ 31 →
      env.blk_init_queue = true → env.alloc_disk = true →
      (mydisk_init env).ret = 0 ∧
      ((mydisk_init env).size : Int) = env.ramdevice_init ∧
      init_call.set_capacity (mydisk_init env).size ∈ (mydisk_init env).calls ∧
      init_call.add_disk ∈ (mydisk_init env).calls) := by
  constructor
  · intro hneg
    simp [mydisk_init, hneg]
  · intro h0 h1 hr0 hr1 hq hd
    have hnot : ¬ env.ramdevice_init < 0 := Int.not_lt.mpr h0
    have hmajor := to_u_int_pos env.register_blkdev hr0 (by omega)
    have hsize := to_u_int_of_nonneg env.ramdevice_init h0 (by omega)
    simp only [mydisk_init, hnot, hmajor, hq, hd, if_false, Bool.true_eq_false]
    exact ⟨trivial, hsize, by simp, by simp⟩

/-- A failed and a successful bring-up: `ramdevice_init` returning `-ENOMEM` is passed on,
and with 1024 sectors and major number 250 the device comes up. -/
theorem mydisk_init_backing_store_witness :
    (mydisk_init ⟨-12, 250, true, true⟩).ret = -12 ∧
    (mydisk_init ⟨1024, 250, true, true⟩).ret = 0 ∧
    ((mydisk_init ⟨1024, 250, true, true⟩).size : Int) = 1024 :=
  ⟨((mydisk_init_backing_store ⟨-12, 250, true, true⟩).1 (by decide)).1,
    ((mydisk_init_backing_store ⟨1024, 250, true, true⟩).2 (by decide) (by decide)
      (by decide) (by decide) rfl rfl).1,
    ((mydisk_init_backing_store ⟨1024, 250, true, true⟩).2 (by decide) (by decide)
      (by decide) (by decide) rfl rfl).2.1⟩

/-- Claim C15: when `mydisk_init` has acquired the backing store, has gone past its test of
the major number, and `blk_init_queue` or `alloc_disk` returns `NULL`, it returns `-ENOMEM`,
and by then it has released the queue if it was created, then the major number, then the
backing store through `ramdevice_cleanup`: each once, and every resource it acquired among
them, in reverse order of acquisition. When `register_blkdev` did return a major number, what
was released is exactly what was acquired, reversed. -/
theorem mydisk_init_unwinds (env : init_env)
    (hstore : 0 ≤ env.ramdevice_init)
    (hpast : to_u_int env.register_blkdev ≠ 0)
    (hfail : env.blk_init_queue = false ∨ env.alloc_disk = false) :
    (mydisk_init env).ret = - ENOMEM ∧
    (released (mydisk_init env).calls).Nodup ∧
    init_resource.backing_store ∈ released (mydisk_init env).calls ∧
    (acquired env (mydisk_init env).calls).reverse.Sublist
      (released (mydisk_init env).calls) ∧
    (0 < env.register_blkdev →
      released (mydisk_init env).calls = (acquired env (mydisk_init env).calls).reverse) ∧
    (env.blk_init_queue = false →
      released (mydisk_init env).calls
        = [init_resource.major_number, init_resource.backing_store]) ∧
    (env.blk_init_queue = true →
      released (mydisk_init env).calls
        = [init_resource.queue, init_resource.major_number, init_resource.backing_store]) := by
  have hnot : ¬ env.ramdevice_init < 0 := Int.not_lt.mpr hstore
  have hm : ¬ to_u_int env.register_blkdev ≤ 0 := by omega
  cases hq : env.blk_init_queue with
  | false =>
    by_cases hr : 0 < env.register_blkdev
    · simp [mydisk_init, hnot, hm, hq, released, acquired, hstore, hr]
    · simp [mydisk_init, hnot, hm, hq, released, acquired, hstore, hr]
  | true =>
    have hd : env.alloc_disk = false := by
      rcases hfail with h | h
      · rw [hq] at h; cases h
      · exact h
    by_cases hr : 0 < env.register_blkdev
    · simp [mydisk_init, hnot, hm, hq, hd, released, acquired, hstore, hr]
    · simp [mydisk_init, hnot, hm, hq, hd, released, acquired, hstore, hr]

/-- With 1024 sectors and major number 250, a failing `alloc_disk` makes `mydisk_init`
return `-ENOMEM` after releasing the queue, the major number and the backing store. -/
theorem mydisk_init_unwinds_witness :
    (mydisk_init ⟨1024, 250, true, false⟩).ret = - ENOMEM ∧
    released (mydisk_init ⟨1024, 250, true, false⟩).calls
      = [init_resource.queue, init_resource.major_number, init_resource.backing_store] :=
  ⟨(mydisk_init_unwinds ⟨1024, 250, true, false⟩ (by decide) (by decide)
      (Or.inr rfl)).1,
    (mydisk_init_unwinds ⟨1024, 250, true, false⟩ (by decide) (by decide)
      (Or.inr rfl)).2.2.2.2.2.2 rfl⟩

/-- Claim C16 fails on the code: `register_blkdev` returning `-EBUSY` (-16) is stored in the
unsigned `mydisk_major` as 4294967280, the test `mydisk_major <= 0` does not fire, and
`mydisk_init` goes on to create the queue and the disk and returns 0, without calling
`ramdevice_cleanup`. -/
theorem mydisk_init_negative_major_undetected :
    (mydisk_init ⟨1024, -16, true, true⟩).ret = 0 ∧
    (mydisk_init ⟨1024, -16, true, true⟩).ret ≠ - EBUSY ∧
    (mydisk_init ⟨1024, -16, true, true⟩).mydisk_major = 4294967280 ∧
    (mydisk_init ⟨1024, -16, true, true⟩).calls
      = [init_call.ramdevice_init, init_call.register_blkdev 0, init_call.spin_lock_init,
          init_call.blk_init_queue, init_call.alloc_disk 16, init_call.set_capacity 1024,
          init_call.add_disk] := by
  decide

/-- Claim C19 fails on the code: for minor number 16, which is `MYDISK_MINOR_CNT` and so not
below it, `mydisk_open` returns 0 instead of `-ENODEV`; the test is `unit > MYDISK_MINOR_CNT`,
so the first minor number refused is 17. -/
theorem mydisk_open_minor_cnt_accepted :
    MYDISK_MINOR_CNT = 16 ∧ mydisk_open 16 = 0 ∧ mydisk_open 16 ≠ - ENODEV ∧
    mydisk_open 17 = - ENODEV := by
  decide

end RamBlock
